import Mathlib

/-!
Verification of the group-call members list controller
(Telegram/SourceFiles/calls/calls_group_members.cpp).

The development shallowly embeds the row state machine (`Row`), the
controller state (`MCState`: the delegate's row list, the sounding-row
map keyed by ssrc, the shared sounding animation flag and the popup-menu
bookkeeping) and the event handlers of `MembersController`.
-/

namespace Calls

/-- Row::State from the source. -/
inductive RowState
  | Active
  | Inactive
  | Muted
  | Invited
deriving DecidableEq

/-- Data::GroupCall::Participant, restricted to the fields this module
reads: user id, audio ssrc, and the muted/sounding/speaking/canSelfUnmute
flags. -/
structure Participant where
  user : Nat
  ssrc : Nat
  muted : Bool
  sounding : Bool
  speaking : Bool
  canSelfUnmute : Bool
deriving DecidableEq

/-- The state of a `Row`: the fields of class Row that the claims read
(`_state`, `_ssrc`, `_sounding`, `_speaking`, `_skipLevelUpdate`), plus the
user the row was constructed for. A freshly constructed row has the C++
member initializers: Inactive, ssrc 0, not sounding, not speaking. -/
structure Row where
  user : Nat
  state : RowState := RowState.Inactive
  ssrc : Nat := 0
  sounding : Bool := false
  speaking : Bool := false
  skipLevelUpdate : Bool := false
deriving DecidableEq

/-- The ssrc the row is given: the participant's ssrc, or 0 without a
participant (`participant ? participant->ssrc : 0`). -/
def ssrcOf : Option Participant → Nat
  | none => 0
  | some p => p.ssrc

/-- Row::updateState from the source: sets the ssrc, then picks the state
and the sounding/speaking flags by the participant's fields. -/
def Row.updateState (r : Row) (participant : Option Participant) : Row :=
  let r := { r with ssrc := ssrcOf participant }
  match participant with
  | none =>
      { r with state := RowState.Invited, sounding := false, speaking := false }
  | some p =>
      if !p.muted || (p.sounding && p.ssrc != 0) then
        { r with
            state := RowState.Active,
            sounding := p.sounding && p.ssrc != 0,
            speaking := p.speaking && p.ssrc != 0 }
      else if p.canSelfUnmute then
        { r with state := RowState.Inactive, sounding := false, speaking := false }
      else
        { r with state := RowState.Muted, sounding := false, speaking := false }

/-- Row construction (`Row::Row(delegate, user)`): all state fields keep
their member initializers. -/
def newRow (u : Nat) : Row := { user := u }

/-- Modelled from the spec: base::flat_map (base/flat_map.h, which is not
under src/) keyed by ssrc with a row as value; a row is represented by its
user id. Key lookup. -/
def mapContains (m : List (Nat × Nat)) (k : Nat) : Bool :=
  m.any (fun e => e.1 == k)

/-- Modelled from the spec: base::flat_map::emplace inserts the pair only
when the key is absent. -/
def mapEmplace (m : List (Nat × Nat)) (k v : Nat) : List (Nat × Nat) :=
  if mapContains m k then m else (k, v) :: m

/-- Modelled from the spec: base::flat_map::remove erases the entry with
the given key, when present. -/
def mapRemove (m : List (Nat × Nat)) (k : Nat) : List (Nat × Nat) :=
  m.filter (fun e => e.1 != k)

/-- The mutable state of MembersController that the claims concern:
the session user's id, the delegate's row list, `_soundingRowBySsrc`,
whether `_soundingAnimation` is animating, whether `_menu` is shown,
`_menuCheckRowsAfterHidden` and `_skipRowLevelUpdate`. -/
structure MCState where
  selfId : Nat
  rows : List Row
  soundingRowBySsrc : List (Nat × Nat)
  soundingAnimation : Bool
  menuOpen : Bool
  menuCheckRowsAfterHidden : List Nat
  skipRowLevelUpdate : Bool
deriving DecidableEq

/-- Modelled from the spec: delegate()->peerListFindRow(user->id) finds
the row of a user in the delegate's row set (peer_list_box, not under
src/). -/
def findRow (rows : List Row) (u : Nat) : Option Row :=
  rows.find? (fun r => r.user == u)

/-- In the source a row is mutated in place; here the row list is rebuilt
with the updated row in the old row's position (rows are keyed by user). -/
def setRow (rows : List Row) (r : Row) : List Row :=
  rows.map (fun x => if x.user == r.user then r else x)

/-- The `_soundingRowBySsrc` maintenance block of
MembersController::updateRow(row, participant), lines 805-820. -/
def updateSoundingMap (m : List (Nat × Nat)) (u wasSsrc nowSsrc : Nat)
    (wasSounding nowSounding : Bool) : List (Nat × Nat) :=
  if wasSsrc == nowSsrc then
    if nowSounding != wasSounding then
      if nowSounding then mapEmplace m nowSsrc u
      else mapRemove m nowSsrc
    else m
  else
    let m1 := mapRemove m wasSsrc
    if nowSounding then mapEmplace m1 nowSsrc u else m1

/-- MembersController::updateRow(row, participant): records the old
sounding/ssrc, pushes `_skipRowLevelUpdate` into the row, runs
Row::updateState, maintains `_soundingRowBySsrc`, and starts or stops the
shared `_soundingAnimation` on the map's empty/non-empty transitions.
Returns the new controller state together with the updated row, which the
caller places back into (or into) the row list. -/
def updateRowState (st : MCState) (row : Row) (participant : Option Participant) :
    MCState × Row :=
  let wasSounding := row.sounding
  let wasSsrc := row.ssrc
  let row1 := { row with skipLevelUpdate := st.skipRowLevelUpdate }
  let row2 := Row.updateState row1 participant
  let wasNoSounding := st.soundingRowBySsrc.isEmpty
  let m := updateSoundingMap st.soundingRowBySsrc row2.user wasSsrc row2.ssrc
      wasSounding row2.sounding
  let nowNoSounding := m.isEmpty
  let anim :=
    if wasNoSounding && !nowNoSounding then true
    else if nowNoSounding && !wasNoSounding then false
    else st.soundingAnimation
  ({ st with soundingRowBySsrc := m, soundingAnimation := anim }, row2)

/-- MembersController::updateRow(row, participant) applied to a row that
is already in the delegate's list. -/
def updateExistingRow (st : MCState) (row : Row) (participant : Option Participant) :
    MCState :=
  let res := updateRowState st row participant
  { res.1 with rows := setRow res.1.rows res.2 }

/-- MembersController::removeRow: drops the row's ssrc from
`_soundingRowBySsrc` and removes the row from the delegate's list. -/
def removeRow (st : MCState) (row : Row) : MCState :=
  { st with
      soundingRowBySsrc := mapRemove st.soundingRowBySsrc row.ssrc,
      rows := st.rows.filter (fun x => x.user != row.user) }

/-- The initial value of `_fullCount` (rpl::variable initialized to 1). -/
def fullCountInitial : Int := 1

/-- The map applied in subscribeToChanges to every count coming from the
real call: `std::max(value, 1)`. -/
def fullCountMap (value : Int) : Int := max value 1

/-- Modelled from the spec: delegate()->peerListAppendRow keeps the row
list a set keyed by the peer (peer_list_box, not under src/): a row whose
user already has a row is not inserted. -/
def peerListAppendRow (rows : List Row) (r : Row) : List Row :=
  if (findRow rows r.user).isSome then rows else rows ++ [r]

/-- Modelled from the spec: delegate()->peerListPrependRow, with the same
dedup-by-user behaviour as appending (peer_list_box, not under src/). -/
def peerListPrependRow (rows : List Row) (r : Row) : List Row :=
  if (findRow rows r.user).isSome then rows else r :: rows

/-- The three-way key used by checkSpeakingRowPosition's comparator: 0 for
the row being checked, 1 for other speaking rows, 2 for the rest. -/
def proj (u : Nat) (r : Row) : Nat :=
  if r.user == u then 0 else if r.speaking then 1 else 2

/-- Modelled from the spec: delegate()->peerListSortRows lives in the peer
list widget (peer_list_box, not under src/); it reorders the row list by
the comparator built from proj, keeping the relative order of equal rows:
the key-0 rows, then the key-1 rows, then the key-2 rows. -/
def peerListSortRows (rows : List Row) (u : Nat) : List Row :=
  rows.filter (fun r => proj u r == 0)
    ++ rows.filter (fun r => proj u r == 1)
    ++ rows.filter (fun r => proj u r == 2)

/-- The scan of checkSpeakingRowPosition, lines 766-775: walk the list
from the top; meeting the row itself means every row above it is speaking
(no sort); meeting a non-speaking row first means the list must be
sorted. -/
def shouldSort (rows : List Row) (u : Nat) : Bool :=
  match rows with
  | [] => true
  | r :: rest =>
      if r.user == u then false
      else if !r.speaking then true
      else shouldSort rest u

/-- MembersController::checkSpeakingRowPosition: with the popup menu shown
it only records the row's peer in `_menuCheckRowsAfterHidden` (a
flat_set); otherwise it sorts the list exactly when a non-speaking row
sits above the given row. -/
def checkSpeakingRowPosition (st : MCState) (u : Nat) : MCState :=
  if st.menuOpen then
    { st with
        menuCheckRowsAfterHidden :=
          if st.menuCheckRowsAfterHidden.any (fun w => w == u) then
            st.menuCheckRowsAfterHidden
          else u :: st.menuCheckRowsAfterHidden }
  else if shouldSort st.rows u then
    { st with rows := peerListSortRows st.rows u }
  else st

/-- MembersController::createRow: builds a row for the participant's user
and runs updateRow(row, &participant) on it (which also touches the
sounding map and the shared animation). -/
def createRow (st : MCState) (p : Participant) : MCState × Row :=
  updateRowState st (newRow p.user) (some p)

/-- MembersController::createSelfRow: a row for the session user updated
with a null participant. -/
def createSelfRow (st : MCState) : MCState × Row :=
  updateRowState st (newRow st.selfId) none

/-- MembersController::createInvitedRow: null when the user already has a
row; otherwise a fresh row updated with a null participant (state
Invited). -/
def createInvitedRow (st : MCState) (u : Nat) : MCState × Option Row :=
  if (findRow st.rows u).isSome then (st, none)
  else
    let res := updateRowState st (newRow u) none
    (res.1, some res.2)

/-- MembersController::updateRow(was, now), lines 741-757: with an
existing row, first check the speaking position on a not-speaking to
speaking transition, then update the row; without one, create a row and
prepend it when it is speaking, append it otherwise. -/
def updateRowPair (st : MCState) (was : Option Participant) (now : Participant) :
    MCState :=
  match findRow st.rows now.user with
  | some row =>
      let st1 :=
        if now.speaking && (match was with | none => true | some w => !w.speaking) then
          checkSpeakingRowPosition st row.user
        else st
      updateExistingRow st1 row (some now)
  | none =>
      let res := createRow st now
      if res.2.speaking then
        { res.1 with rows := peerListPrependRow res.1.rows res.2 }
      else
        { res.1 with rows := peerListAppendRow res.1.rows res.2 }

/-- The participantUpdated handler of subscribeToChanges, lines 696-714:
with no 'now' state the row of a non-self user is removed while the self
row is updated with a null participant; with a 'now' state the pairwise
updateRow runs. -/
def handleParticipantUpdated (st : MCState) (was now : Option Participant) :
    MCState :=
  let user :=
    match was with
    | some w => w.user
    | none => (now.map Participant.user).getD 0
  match now with
  | none =>
      match findRow st.rows user with
      | some row =>
          if user == st.selfId then updateExistingRow st row none
          else removeRow st row
      | none => st
  | some n => updateRowPair st was n

/-- One step of appendInvitedUsers and of the invite subscription: create
an invited row, and append it when createInvitedRow returned one. -/
def processInvite (st : MCState) (u : Nat) : MCState :=
  match createInvitedRow st u with
  | (st1, some row) => { st1 with rows := peerListAppendRow st1.rows row }
  | (st1, none) => st1

/-- MembersController::appendInvitedUsers, first half: one invited row per
user currently invited to the call (owner().invitedToCallUsers(_realId),
passed here as a list). -/
def appendInvitedUsers (st : MCState) (invited : List Nat) : MCState :=
  invited.foldl processInvite st

/-- The invitesToCalls subscription of appendInvitedUsers: a later invite
event is processed only when it carries this call's id. -/
def handleInvite (st : MCState) (inviteId realId : Nat) (u : Nat) : MCState :=
  if inviteId == realId then processInvite st u else st

/-- The destroyed-callback installed on the popup menu in rowClicked,
lines 1012-1025: take the pending peer set, and re-check the speaking row
position of each pending peer whose row still exists and is still
speaking, now with no menu shown. -/
def handleMenuDestroyed (st : MCState) : MCState :=
  let pending := st.menuCheckRowsAfterHidden
  let st1 : MCState :=
    { st with menuOpen := false, menuCheckRowsAfterHidden := [] }
  pending.foldl
    (fun s u =>
      match findRow s.rows u with
      | some row => if row.speaking then checkSpeakingRowPosition s u else s
      | none => s)
    st1

/-- kBlobsEnterDuration = crl::time(250). -/
def kBlobsEnterDuration : Int := 250

/-- The per-frame callback installed on `_soundingAnimation` in the
constructor, lines 626-637: when the hide timestamp is set and old enough
the animation stops and no row is advanced; otherwise every row of
`_soundingRowBySsrc` gets its blob animation advanced and its repaint
requested. Returns (keep running, users advanced and repainted). -/
def soundingFrame (st : MCState) (hideLastTime now : Int) : Bool × List Nat :=
  if hideLastTime > 0 ∧ now - hideLastTime ≥ kBlobsEnterDuration then
    (false, [])
  else
    (true, st.soundingRowBySsrc.map (fun e => e.2))

/-- The per-row predicate of prepareRows' removal pass: the row survives
when it is the self row or its user is in the participant list. -/
def keepInPrepare (selfId : Nat) (participants : List Participant) (r : Row) : Bool :=
  r.user == selfId || participants.any (fun p => p.user == r.user)

/-- The removal pass of prepareRows, lines 888-907, walking the row list
once: self rows set foundSelf, rows of current participants stay, other
rows are removed (removeRow also purges the sounding map). Returns
(state, foundSelf, changed). -/
def prepareRowsLoop (st : MCState) (pending : List Row)
    (participants : List Participant) (foundSelf changed : Bool) :
    MCState × Bool × Bool :=
  match pending with
  | [] => (st, foundSelf, changed)
  | row :: rest =>
      if row.user == st.selfId then
        prepareRowsLoop st rest participants true changed
      else if participants.any (fun p => p.user == row.user) then
        prepareRowsLoop st rest participants foundSelf changed
      else
        prepareRowsLoop (removeRow st row) rest participants foundSelf true

/-- MembersController::prepareRows, lines 883-929: remove rows of users
no longer in the participant list, append a self row when none was found
(from self's participant record when self is a participant, otherwise the
connecting self row), then attempt a row for every participant (the
append itself dedups); the returned Bool tells whether
peerListRefreshRows was called (the code's `changed`). The per-participant
step of the final loop (lines 920-925) first: createRow runs
unconditionally (so `changed` is set even for a participant that already
has a row) and the append itself dedups. -/
def prepareStep (acc : MCState × Bool) (p : Participant) : MCState × Bool :=
  let res := createRow acc.1 p
  ({ res.1 with rows := peerListAppendRow res.1.rows res.2 }, true)

/-- The self-append pass of prepareRows, lines 908-919, run when no self
row was found: the self row comes from self's participant record when
self is a participant, from createSelfRow otherwise, and is appended. -/
def prepareSelfAppend (s : MCState) (participants : List Participant) : MCState :=
  match participants.find? (fun p => p.user == s.selfId) with
  | some p =>
      { (createRow s p).1 with
          rows := peerListAppendRow (createRow s p).1.rows (createRow s p).2 }
  | none =>
      { (createSelfRow s).1 with
          rows := peerListAppendRow (createSelfRow s).1.rows (createSelfRow s).2 }

/-- The first two passes of prepareRows: the removal loop, then the self
append when foundSelf stayed false (which also sets `changed`). -/
def prepareMiddle (st : MCState) (participants : List Participant) :
    MCState × Bool :=
  if (prepareRowsLoop st st.rows participants false false).2.1 then
    ((prepareRowsLoop st st.rows participants false false).1,
     (prepareRowsLoop st st.rows participants false false).2.2)
  else
    (prepareSelfAppend
      (prepareRowsLoop st st.rows participants false false).1 participants, true)

/-- MembersController::prepareRows assembled from its three passes. -/
def prepareRows (st : MCState) (participants : List Participant) : MCState × Bool :=
  participants.foldl prepareStep (prepareMiddle st participants)

/-- Data::ChatData's mgInfo as read by rowContextMenu: the megagroup
creator and the lastAdmins map restricted to the manage_call right. -/
structure MgInfo where
  creator : Nat
  lastAdmins : List (Nat × Bool)
deriving DecidableEq

/-- Modelled from the spec: the peer owning the call, as read by
rowContextMenu (data_chat/data_channel, not under src/): a basic group
with its admins set, creator and the caller's ban rights, a megagroup
with its optional mgInfo and the set of users the caller may restrict, or
another peer kind. -/
inductive PeerInfo
  | chat (admins : List Nat) (creator : Nat) (amCreator : Bool) (canBanMembers : Bool)
  | megagroup (mgInfo : Option MgInfo) (restrictable : List Nat)
  | other
deriving DecidableEq

/-- The admin determination of rowContextMenu, lines 1050-1068. -/
def isAdmin (info : PeerInfo) (u : Nat) : Bool :=
  match info with
  | PeerInfo.chat admins creator _ _ => admins.contains u || (creator == u)
  | PeerInfo.megagroup mgInfo _ =>
      match mgInfo with
      | some mg =>
          if mg.creator == u then true
          else
            match mg.lastAdmins.find? (fun e => e.1 == u) with
            | none => false
            | some e => e.2
      | none => false
  | PeerInfo.other => false

/-- Whether the caller may ban or restrict the target in this chat or
channel: the peer-kind part of the canKick lambda, lines 1141-1151. -/
def mayBanOrRestrict (info : PeerInfo) (u : Nat) : Bool :=
  match info with
  | PeerInfo.chat admins _ amCreator canBan =>
      amCreator || (canBan && !admins.contains u)
  | PeerInfo.megagroup _ restrictable => restrictable.contains u
  | PeerInfo.other => false

/-- The canKick lambda of rowContextMenu: never for an Invited row, else
by the ban/restrict rights on the peer. -/
def canKick (info : PeerInfo) (rowState : RowState) (u : Nat) : Bool :=
  if rowState == RowState.Invited then false else mayBanOrRestrict info u

/-- The actions rowContextMenu can put into the popup menu. -/
inductive MenuAction
  | muteToggle (mute : Bool)
  | viewProfile
  | sendMessage
  | removeFromGroup
deriving DecidableEq

/-- The inputs of rowContextMenu besides the row: the session user's id,
`_peer->canManageGroupCall()` and the peer's data. -/
structure MenuContext where
  selfId : Nat
  canManageGroupCall : Bool
  info : PeerInfo
deriving DecidableEq

/-- MembersController::rowContextMenu, lines 1035-1158, reduced to the
action list it builds: none for the self row; otherwise the optional
mute/unmute action, view profile, send message, and the optional
remove-from-group action. -/
def rowContextMenu (ctx : MenuContext) (row : Row) : Option (List MenuAction) :=
  if row.user == ctx.selfId then none
  else
    let admin := isAdmin ctx.info row.user
    let mute :=
      if admin then row.state == RowState.Active
      else row.state != RowState.Muted
    some
      ((if ctx.canManageGroupCall && (!admin || mute) then
          [MenuAction.muteToggle mute]
        else [])
        ++ [MenuAction.viewProfile, MenuAction.sendMessage]
        ++ (if canKick ctx.info row.state row.user then
              [MenuAction.removeFromGroup]
            else []))

/-- Fixture for the concrete witnesses below: an empty controller whose
session user is user 1. -/
def mcBase : MCState :=
  { selfId := 1, rows := [], soundingRowBySsrc := [],
    soundingAnimation := false, menuOpen := false,
    menuCheckRowsAfterHidden := [], skipRowLevelUpdate := false }

/-- Fixture: a freshly constructed (hence non-speaking) row of user 1. -/
def rowQuiet1 : Row := { user := 1 }

/-- Fixture: an active speaking row of user 2 with ssrc 5. -/
def rowSpeaking2 : Row :=
  { user := 2, state := RowState.Active, ssrc := 5, speaking := true }

/-- Fixture: an active, non-speaking row of user 2 with ssrc 5. -/
def rowActive2 : Row := { user := 2, state := RowState.Active, ssrc := 5 }

/-- Fixture: participant 2, unmuted, neither sounding nor speaking. -/
def partQuiet2 : Participant :=
  { user := 2, ssrc := 5, muted := false, sounding := false,
    speaking := false, canSelfUnmute := true }

/-- Fixture: a participant record of the session user (user 1). -/
def partSelf1 : Participant :=
  { user := 1, ssrc := 9, muted := false, sounding := false,
    speaking := false, canSelfUnmute := true }

/-- Fixture: a sounding, speaking active row of user 2 with ssrc 5. -/
def rowSounding2 : Row :=
  { user := 2, state := RowState.Active, ssrc := 5, sounding := true,
    speaking := true }

/-- Fixture: participant 2 reappearing with a new ssrc 7, still sounding. -/
def partResync2 : Participant :=
  { user := 2, ssrc := 7, muted := false, sounding := true,
    speaking := true, canSelfUnmute := true }

/-- The number of rows a user has in a row list. -/
def countUser (rows : List Row) (u : Nat) : Nat :=
  (rows.filter (fun r => r.user == u)).length

/-- Whether a row may be sounding only with a nonzero ssrc, rows have
distinct users, and no two rows share a nonzero ssrc. -/
def rowsWellFormed (rows : List Row) : Prop :=
  rows.Pairwise (fun a b => a.user ≠ b.user ∧ (a.ssrc = b.ssrc → a.ssrc = 0))

/-- The sounding-map invariant of C8: rows are well formed, every map
entry is keyed by a nonzero ssrc and points to a sounding row with that
ssrc, and every sounding row has its entry. -/
def soundingMapInvariant (st : MCState) : Prop :=
  rowsWellFormed st.rows ∧
  (∀ e ∈ st.soundingRowBySsrc,
    e.1 ≠ 0 ∧ ∃ r ∈ st.rows, r.user = e.2 ∧ r.sounding = true ∧ r.ssrc = e.1) ∧
  (∀ r ∈ st.rows, r.sounding = true → (r.ssrc, r.user) ∈ st.soundingRowBySsrc)

/-- The freshness assumption on participant data: an update never hands a
row a nonzero ssrc already owned by a different row (ssrcs identify
audio sources uniquely across the call). -/
def freshSsrc (st : MCState) (row : Row) (p : Option Participant) : Prop :=
  ∀ x ∈ st.rows, x.user ≠ row.user → ssrcOf p = 0 ∨ x.ssrc ≠ ssrcOf p

/-- C3: Row::updateState maps a participant record to the row's state
exactly as: no record gives Invited with sounding and speaking false; a
record that is not muted, or is sounding with nonzero ssrc, gives Active
with sounding = (sounding and ssrc nonzero) and speaking = (speaking and
ssrc nonzero); a muted record with canSelfUnmute gives Inactive with both
false; a muted record without canSelfUnmute gives Muted with both false;
and in every case the row's ssrc is set to the record's ssrc (0 when there
is no record). -/
theorem c3_row_updateState (r : Row) (p : Participant) :
    (Row.updateState r none =
      { r with
          ssrc := 0, state := RowState.Invited,
          sounding := false, speaking := false }) ∧
    (p.muted = false ∨ (p.sounding = true ∧ p.ssrc ≠ 0) →
      Row.updateState r (some p) =
        { r with
            ssrc := p.ssrc, state := RowState.Active,
            sounding := p.sounding && p.ssrc != 0,
            speaking := p.speaking && p.ssrc != 0 }) ∧
    (p.muted = true → ¬(p.sounding = true ∧ p.ssrc ≠ 0) → p.canSelfUnmute = true →
      Row.updateState r (some p) =
        { r with
            ssrc := p.ssrc, state := RowState.Inactive,
            sounding := false, speaking := false }) ∧
    (p.muted = true → ¬(p.sounding = true ∧ p.ssrc ≠ 0) → p.canSelfUnmute = false →
      Row.updateState r (some p) =
        { r with
            ssrc := p.ssrc, state := RowState.Muted,
            sounding := false, speaking := false }) := by
  refine ⟨rfl, ?_, ?_, ?_⟩
  · intro h
    have hcond : (!p.muted || (p.sounding && p.ssrc != 0)) = true := by
      rcases h with h | ⟨h1, h2⟩
      · simp [h]
      · simp [h1, h2]
    simp [Row.updateState, ssrcOf, hcond]
  · intro hm hns hc
    have hcond : (!p.muted || (p.sounding && p.ssrc != 0)) = false := by
      simp only [hm, Bool.not_true, Bool.false_or]
      by_contra hb
      rw [Bool.not_eq_false, Bool.and_eq_true] at hb
      exact hns ⟨hb.1, by simpa using hb.2⟩
    simp [Row.updateState, ssrcOf, hcond, hc]
  · intro hm hns hc
    have hcond : (!p.muted || (p.sounding && p.ssrc != 0)) = false := by
      simp only [hm, Bool.not_true, Bool.false_or]
      by_contra hb
      rw [Bool.not_eq_false, Bool.and_eq_true] at hb
      exact hns ⟨hb.1, by simpa using hb.2⟩
    simp [Row.updateState, ssrcOf, hcond, hc]

/-- Witness for c3_row_updateState at concrete rows and participants,
covering each hypothesis. -/
theorem c3_row_updateState_witness :
    (Row.updateState (newRow 7)
        (some { user := 7, ssrc := 5, muted := false, sounding := true,
                speaking := true, canSelfUnmute := true }) =
      { user := 7, ssrc := 5, state := RowState.Active,
        sounding := true, speaking := true, skipLevelUpdate := false }) ∧
    (Row.updateState (newRow 7)
        (some { user := 7, ssrc := 5, muted := true, sounding := false,
                speaking := false, canSelfUnmute := true }) =
      { user := 7, ssrc := 5, state := RowState.Inactive,
        sounding := false, speaking := false, skipLevelUpdate := false }) ∧
    (Row.updateState (newRow 7)
        (some { user := 7, ssrc := 5, muted := true, sounding := false,
                speaking := false, canSelfUnmute := false }) =
      { user := 7, ssrc := 5, state := RowState.Muted,
        sounding := false, speaking := false, skipLevelUpdate := false }) := by
  refine ⟨?_, ?_, ?_⟩
  · have h := (c3_row_updateState (newRow 7)
      { user := 7, ssrc := 5, muted := false, sounding := true,
        speaking := true, canSelfUnmute := true }).2.1 (Or.inl rfl)
    simpa using h
  · have h := (c3_row_updateState (newRow 7)
      { user := 7, ssrc := 5, muted := true, sounding := false,
        speaking := false, canSelfUnmute := true }).2.2.1 rfl (by decide) rfl
    simpa using h
  · have h := (c3_row_updateState (newRow 7)
      { user := 7, ssrc := 5, muted := true, sounding := false,
        speaking := false, canSelfUnmute := false }).2.2.2 rfl (by decide) rfl
    simpa using h

/-- C5: the shared per-frame sounding animation is started exactly when a
row update makes the sounding-row map go from empty to non-empty and
stopped exactly when such an update makes it go from non-empty to empty;
while it runs, each frame advances the blob animation of every row in the
map and requests its repaint. -/
theorem c5_sounding_animation (st : MCState) (row : Row) (p : Option Participant)
    (hideLastTime now : Int) :
    ((updateRowState st row p).1.soundingAnimation =
      (if st.soundingRowBySsrc.isEmpty
          && !(updateRowState st row p).1.soundingRowBySsrc.isEmpty then true
       else if (updateRowState st row p).1.soundingRowBySsrc.isEmpty
          && !st.soundingRowBySsrc.isEmpty then false
       else st.soundingAnimation)) ∧
    (¬(hideLastTime > 0 ∧ now - hideLastTime ≥ kBlobsEnterDuration) →
      soundingFrame st hideLastTime now =
        (true, st.soundingRowBySsrc.map (fun e => e.2))) ∧
    (hideLastTime > 0 ∧ now - hideLastTime ≥ kBlobsEnterDuration →
      soundingFrame st hideLastTime now = (false, [])) := by
  refine ⟨rfl, ?_, ?_⟩
  · intro h
    simp [soundingFrame, h]
  · intro h
    simp [soundingFrame, h]

/-- Witness for c5_sounding_animation: a map going empty to non-empty
starts the animation; a frame with no expired hide timestamp advances the
mapped row; an expired hide timestamp stops the animation. -/
theorem c5_sounding_animation_witness :
    ((updateRowState
        { selfId := 1, rows := [], soundingRowBySsrc := [],
          soundingAnimation := false, menuOpen := false,
          menuCheckRowsAfterHidden := [], skipRowLevelUpdate := false }
        (newRow 2)
        (some { user := 2, ssrc := 5, muted := false, sounding := true,
                speaking := false, canSelfUnmute := true })).1.soundingAnimation
      = true) ∧
    (soundingFrame
        { selfId := 1, rows := [], soundingRowBySsrc := [(5, 2)],
          soundingAnimation := true, menuOpen := false,
          menuCheckRowsAfterHidden := [], skipRowLevelUpdate := false }
        0 100 = (true, [2])) ∧
    (soundingFrame
        { selfId := 1, rows := [], soundingRowBySsrc := [(5, 2)],
          soundingAnimation := true, menuOpen := false,
          menuCheckRowsAfterHidden := [], skipRowLevelUpdate := false }
        10 400 = (false, [])) := by
  refine ⟨?_, ?_, ?_⟩
  · have h := (c5_sounding_animation
      { selfId := 1, rows := [], soundingRowBySsrc := [],
        soundingAnimation := false, menuOpen := false,
        menuCheckRowsAfterHidden := [], skipRowLevelUpdate := false }
      (newRow 2)
      (some { user := 2, ssrc := 5, muted := false, sounding := true,
              speaking := false, canSelfUnmute := true }) 0 0).1
    rw [h]
    decide
  · exact (c5_sounding_animation
      { selfId := 1, rows := [], soundingRowBySsrc := [(5, 2)],
        soundingAnimation := true, menuOpen := false,
        menuCheckRowsAfterHidden := [], skipRowLevelUpdate := false }
      (newRow 2) none 0 100).2.1 (by decide)
  · exact (c5_sounding_animation
      { selfId := 1, rows := [], soundingRowBySsrc := [(5, 2)],
        soundingAnimation := true, menuOpen := false,
        menuCheckRowsAfterHidden := [], skipRowLevelUpdate := false }
      (newRow 2) none 10 400).2.2 (by decide)

/-- C7: rowContextMenu returns no menu for the self row; for any other
row the menu contains a mute/unmute action exactly when the current user
can manage the group call and (the target is not an admin, or the offered
action is mute), always contains view-profile and send-message actions,
and contains a remove-from-group action exactly when the target row is
not in the Invited state and the current user may ban or restrict the
target in this chat or channel. -/
theorem c7_rowContextMenu (ctx : MenuContext) (row : Row) :
    (row.user = ctx.selfId → rowContextMenu ctx row = none) ∧
    (row.user ≠ ctx.selfId →
      ∃ menu, rowContextMenu ctx row = some menu ∧
        ((∃ b, MenuAction.muteToggle b ∈ menu) ↔
          (ctx.canManageGroupCall = true ∧
            (isAdmin ctx.info row.user = false ∨
              (if isAdmin ctx.info row.user then
                 row.state == RowState.Active
               else row.state != RowState.Muted) = true))) ∧
        MenuAction.viewProfile ∈ menu ∧
        MenuAction.sendMessage ∈ menu ∧
        (MenuAction.removeFromGroup ∈ menu ↔
          (row.state ≠ RowState.Invited ∧
            mayBanOrRestrict ctx.info row.user = true))) := by
  constructor
  · intro h
    simp [rowContextMenu, h]
  · intro h
    have hbeq : (row.user == ctx.selfId) = false := by
      simpa using h
    refine ⟨(if ctx.canManageGroupCall
          && (!isAdmin ctx.info row.user
            || (if isAdmin ctx.info row.user then
                  row.state == RowState.Active
                else row.state != RowState.Muted)) then
        [MenuAction.muteToggle
          (if isAdmin ctx.info row.user then
             row.state == RowState.Active
           else row.state != RowState.Muted)]
      else [])
      ++ [MenuAction.viewProfile, MenuAction.sendMessage]
      ++ (if canKick ctx.info row.state row.user then
            [MenuAction.removeFromGroup]
          else []), by simp [rowContextMenu, hbeq], ?_, ?_, ?_, ?_⟩
    · have hiff : (ctx.canManageGroupCall
          && (!isAdmin ctx.info row.user
            || (if isAdmin ctx.info row.user then
                  row.state == RowState.Active
                else row.state != RowState.Muted))) = true ↔
          (ctx.canManageGroupCall = true ∧
            (isAdmin ctx.info row.user = false ∨
              (if isAdmin ctx.info row.user then
                 row.state == RowState.Active
               else row.state != RowState.Muted) = true)) := by
        rw [Bool.and_eq_true, Bool.or_eq_true, Bool.not_eq_true']
      rw [← hiff]
      by_cases hk : canKick ctx.info row.state row.user = true <;>
        by_cases hc : (ctx.canManageGroupCall
          && (!isAdmin ctx.info row.user
            || (if isAdmin ctx.info row.user then
                  row.state == RowState.Active
                else row.state != RowState.Muted))) = true <;>
        simp [hc, hk]
    · simp
    · simp
    · have hiff : canKick ctx.info row.state row.user = true ↔
          (row.state ≠ RowState.Invited ∧
            mayBanOrRestrict ctx.info row.user = true) := by
        by_cases hs : row.state = RowState.Invited <;> simp [canKick, hs]
      rw [← hiff]
      by_cases hk : canKick ctx.info row.state row.user = true <;>
        by_cases hc : (ctx.canManageGroupCall
          && (!isAdmin ctx.info row.user
            || (if isAdmin ctx.info row.user then
                  row.state == RowState.Active
                else row.state != RowState.Muted))) = true <;>
        simp [hc, hk]

/-- Witness for c7_rowContextMenu at a self row and at a kickable,
mutable member of a basic group. -/
theorem c7_rowContextMenu_witness :
    (rowContextMenu
        { selfId := 1, canManageGroupCall := true,
          info := PeerInfo.chat [] 1 true true }
        (newRow 1) = none) ∧
    (∃ menu, rowContextMenu
        { selfId := 1, canManageGroupCall := true,
          info := PeerInfo.chat [] 1 true true }
        { user := 2, state := RowState.Active, ssrc := 5,
          sounding := false, speaking := false, skipLevelUpdate := false }
        = some menu ∧
      (∃ b, MenuAction.muteToggle b ∈ menu) ∧
      MenuAction.viewProfile ∈ menu ∧
      MenuAction.sendMessage ∈ menu ∧
      MenuAction.removeFromGroup ∈ menu) := by
  constructor
  · exact (c7_rowContextMenu
      { selfId := 1, canManageGroupCall := true,
        info := PeerInfo.chat [] 1 true true }
      (newRow 1)).1 rfl
  · obtain ⟨menu, hmenu, hmute, hview, hsend, hkick⟩ :=
      (c7_rowContextMenu
        { selfId := 1, canManageGroupCall := true,
          info := PeerInfo.chat [] 1 true true }
        { user := 2, state := RowState.Active, ssrc := 5,
          sounding := false, speaking := false,
          skipLevelUpdate := false }).2 (by decide)
    exact ⟨menu, hmenu, hmute.2 ⟨rfl, by decide⟩, hview, hsend,
      hkick.2 ⟨by decide, by decide⟩⟩

/-- C10: every value published by fullCountValue is at least 1: the
controller initializes the count to 1 and maps every count received from
the real call through max(value, 1). -/
theorem c10_fullCount_at_least_one :
    fullCountInitial = 1 ∧ ∀ value : Int, 1 ≤ fullCountMap value := by
  exact ⟨rfl, fun value => le_max_right value 1⟩

theorem menuLoopRowsUnchanged (pending : List Nat) (s : MCState) (rows : List Row)
    (hrows : s.rows = rows)
    (h : ∀ w ∈ pending, ∀ r, findRow rows w = some r → r.speaking = false) :
    (pending.foldl
      (fun s u =>
        match findRow s.rows u with
        | some row => if row.speaking then checkSpeakingRowPosition s u else s
        | none => s)
      s).rows = rows := by
  induction pending generalizing s with
  | nil => simpa using hrows
  | cons w rest ih =>
      simp only [List.foldl_cons]
      have hstep :
          (match findRow s.rows w with
           | some row => if row.speaking then checkSpeakingRowPosition s w else s
           | none => s) = s := by
        cases hf : findRow s.rows w with
        | none => rfl
        | some r =>
            have hr : r.speaking = false := h w (by simp) r (by rw [← hrows]; exact hf)
            simp [hr]
      rw [hstep]
      exact ih s hrows (fun w2 hw2 r hr => h w2 (by simp [hw2]) r hr)

/-- C9: while a popup context menu is shown, rows are never reordered:
checkSpeakingRowPosition only records the row's peer in a pending set;
when the menu is destroyed, each recorded peer whose row still exists and
is still speaking is re-checked and only then sorted to the top. -/
theorem c9_menu_defers_reorder (st st2 : MCState) (u v : Nat) :
    (st.menuOpen = true →
      checkSpeakingRowPosition st u =
        { st with
            menuCheckRowsAfterHidden :=
              if st.menuCheckRowsAfterHidden.any (fun w => w == u) then
                st.menuCheckRowsAfterHidden
              else u :: st.menuCheckRowsAfterHidden } ∧
      (checkSpeakingRowPosition st u).rows = st.rows ∧
      u ∈ (checkSpeakingRowPosition st u).menuCheckRowsAfterHidden) ∧
    ((∀ w ∈ st2.menuCheckRowsAfterHidden, ∀ r,
        findRow st2.rows w = some r → r.speaking = false) →
      (handleMenuDestroyed st2).rows = st2.rows) ∧
    (∀ r, st2.menuCheckRowsAfterHidden = [v] →
      findRow st2.rows v = some r → r.speaking = true →
      handleMenuDestroyed st2 =
        checkSpeakingRowPosition
          { st2 with menuOpen := false, menuCheckRowsAfterHidden := [] } v) := by
  refine ⟨?_, ?_, ?_⟩
  · intro h
    refine ⟨by rw [checkSpeakingRowPosition, if_pos h],
      by rw [checkSpeakingRowPosition, if_pos h], ?_⟩
    rw [checkSpeakingRowPosition, if_pos h]
    show u ∈ (if st.menuCheckRowsAfterHidden.any (fun w => w == u) then
        st.menuCheckRowsAfterHidden
      else u :: st.menuCheckRowsAfterHidden)
    by_cases hc : st.menuCheckRowsAfterHidden.any (fun w => w == u)
    · rw [if_pos hc]
      rw [List.any_eq_true] at hc
      obtain ⟨w, hw, hwu⟩ := hc
      have hwu2 : w = u := by simpa using hwu
      exact hwu2 ▸ hw
    · rw [if_neg hc]
      exact List.mem_cons_self u st.menuCheckRowsAfterHidden
  · intro h
    exact menuLoopRowsUnchanged st2.menuCheckRowsAfterHidden _ st2.rows rfl h
  · intro r hpending hfind hspeak
    rw [handleMenuDestroyed, hpending]
    simp only [List.foldl_cons, List.foldl_nil]
    show (match findRow st2.rows v with
      | some row =>
          if row.speaking then
            checkSpeakingRowPosition
              { st2 with menuOpen := false, menuCheckRowsAfterHidden := [] } v
          else { st2 with menuOpen := false, menuCheckRowsAfterHidden := [] }
      | none => { st2 with menuOpen := false, menuCheckRowsAfterHidden := [] }) =
      checkSpeakingRowPosition
        { st2 with menuOpen := false, menuCheckRowsAfterHidden := [] } v
    rw [hfind]
    simp [hspeak]

theorem updateState_user (r : Row) (p : Option Participant) :
    (Row.updateState r p).user = r.user := by
  cases p with
  | none => rfl
  | some q =>
      dsimp only [Row.updateState]
      split
      · rfl
      · split <;> rfl

theorem updateState_ssrc (r : Row) (p : Option Participant) :
    (Row.updateState r p).ssrc = ssrcOf p := by
  cases p with
  | none => rfl
  | some q =>
      dsimp only [Row.updateState]
      split
      · rfl
      · split <;> rfl

theorem updateState_sounding_ssrc (r : Row) (p : Option Participant)
    (h : (Row.updateState r p).sounding = true) :
    (Row.updateState r p).ssrc ≠ 0 := by
  cases p with
  | none => exact absurd h (by simp [Row.updateState])
  | some q =>
      rw [updateState_ssrc]
      dsimp only [Row.updateState] at h
      by_cases h1 : (!q.muted || (q.sounding && q.ssrc != 0)) = true
      · rw [if_pos h1] at h
        have h2 : (q.sounding && q.ssrc != 0) = true := h
        rw [Bool.and_eq_true] at h2
        simpa [ssrcOf] using h2.2
      · rw [if_neg h1] at h
        by_cases h2 : q.canSelfUnmute = true
        · rw [if_pos h2] at h
          exact absurd h (by simp)
        · rw [if_neg h2] at h
          exact absurd h (by simp)

theorem shouldSort_eq (before after : List Row) (r : Row)
    (hu : ∀ x ∈ before, x.user ≠ r.user) :
    shouldSort (before ++ r :: after) r.user =
      before.any (fun x => !x.speaking) := by
  induction before with
  | nil => simp [shouldSort]
  | cons b rest ih =>
      have hb : (b.user == r.user) = false := by
        simpa using hu b (List.mem_cons_self b rest)
      simp only [List.cons_append, shouldSort, hb, List.any_cons]
      cases hsp : b.speaking with
      | true =>
          simpa [hsp] using ih (fun x hx => hu x (List.mem_cons_of_mem b hx))
      | false => simp [hsp]

theorem filter_proj_zero (l : List Row) (u : Nat)
    (hu : ∀ x ∈ l, x.user ≠ u) :
    l.filter (fun x => proj u x == 0) = [] := by
  rw [List.filter_eq_nil_iff]
  intro x hx
  have hb : (x.user == u) = false := by simpa using hu x hx
  cases hsp : x.speaking <;> simp [proj, hb, hsp]

theorem filter_proj_one (l : List Row) (u : Nat)
    (hu : ∀ x ∈ l, x.user ≠ u) :
    l.filter (fun x => proj u x == 1) = l.filter (fun x => x.speaking) := by
  apply List.filter_congr
  intro x hx
  have hb : (x.user == u) = false := by simpa using hu x hx
  cases hsp : x.speaking <;> simp [proj, hb, hsp]

theorem filter_proj_two (l : List Row) (u : Nat)
    (hu : ∀ x ∈ l, x.user ≠ u) :
    l.filter (fun x => proj u x == 2) = l.filter (fun x => !x.speaking) := by
  apply List.filter_congr
  intro x hx
  have hb : (x.user == u) = false := by simpa using hu x hx
  cases hsp : x.speaking <;> simp [proj, hb, hsp]

theorem peerListSortRows_eq (before after : List Row) (r : Row)
    (hu : ∀ x ∈ before ++ after, x.user ≠ r.user) :
    peerListSortRows (before ++ r :: after) r.user =
      r :: ((before ++ after).filter (fun x => x.speaking)
        ++ (before ++ after).filter (fun x => !x.speaking)) := by
  have hub : ∀ x ∈ before, x.user ≠ r.user :=
    fun x hx => hu x (List.mem_append_left _ hx)
  have hua : ∀ x ∈ after, x.user ≠ r.user :=
    fun x hx => hu x (List.mem_append_right _ hx)
  have hr0 : (proj r.user r == 0) = true := by simp [proj]
  have hr1 : (proj r.user r == 1) = false := by simp [proj]
  have hr2 : (proj r.user r == 2) = false := by simp [proj]
  rw [peerListSortRows]
  rw [List.filter_append, List.filter_append, List.filter_append]
  rw [List.filter_cons, List.filter_cons, List.filter_cons]
  rw [hr0, hr1, hr2]
  rw [filter_proj_zero before r.user hub, filter_proj_zero after r.user hua]
  rw [filter_proj_one before r.user hub, filter_proj_one after r.user hua]
  rw [filter_proj_two before r.user hub, filter_proj_two after r.user hua]
  simp

/-- C1: when a participant transitions from not speaking to speaking and,
with no popup menu open, at least one non-speaking row sits above that
participant's row, checkSpeakingRowPosition re-sorts the whole row list
into three groups in order: that row first, then every other speaking
row, then every non-speaking row; if every row above it is already
speaking, the list order is left unchanged. -/
theorem c1_checkSpeakingRowPosition (st : MCState) (before after : List Row)
    (r : Row)
    (hmenu : st.menuOpen = false)
    (hrows : st.rows = before ++ r :: after)
    (hu : ∀ x ∈ before ++ after, x.user ≠ r.user) :
    ((∃ x ∈ before, x.speaking = false) →
      (checkSpeakingRowPosition st r.user).rows =
        r :: ((before ++ after).filter (fun x => x.speaking)
          ++ (before ++ after).filter (fun x => !x.speaking))) ∧
    ((∀ x ∈ before, x.speaking = true) →
      checkSpeakingRowPosition st r.user = st) := by
  have hub : ∀ x ∈ before, x.user ≠ r.user :=
    fun x hx => hu x (List.mem_append_left _ hx)
  constructor
  · intro hex
    have hsort : shouldSort st.rows r.user = true := by
      rw [hrows, shouldSort_eq before after r hub, List.any_eq_true]
      obtain ⟨x, hx, hxs⟩ := hex
      exact ⟨x, hx, by simp [hxs]⟩
    rw [checkSpeakingRowPosition, if_neg (by simp [hmenu]), if_pos hsort]
    show peerListSortRows st.rows r.user = _
    rw [hrows]
    exact peerListSortRows_eq before after r hu
  · intro hall
    have hsort : shouldSort st.rows r.user = false := by
      rw [hrows, shouldSort_eq before after r hub]
      rw [List.any_eq_false]
      intro x hx
      simp [hall x hx]
    rw [checkSpeakingRowPosition, if_neg (by simp [hmenu]), if_neg (by simp [hsort])]

/-- Witness for c1_checkSpeakingRowPosition: a non-speaking row above the
speaking row of user 2 forces the sort; with no non-speaking row above,
the state is untouched. -/
theorem c1_checkSpeakingRowPosition_witness :
    ((checkSpeakingRowPosition
        { mcBase with rows := [rowQuiet1, rowSpeaking2] } 2).rows =
      [rowSpeaking2, rowQuiet1]) ∧
    (checkSpeakingRowPosition { mcBase with rows := [rowSpeaking2, rowQuiet1] } 2 =
      { mcBase with rows := [rowSpeaking2, rowQuiet1] }) := by
  constructor
  · have h := (c1_checkSpeakingRowPosition
      { mcBase with rows := [rowQuiet1, rowSpeaking2] }
      [rowQuiet1] [] rowSpeaking2 rfl rfl (by decide)).1
      ⟨rowQuiet1, by decide, by decide⟩
    rw [show (2 : Nat) = rowSpeaking2.user from rfl, h]
    decide
  · have h := (c1_checkSpeakingRowPosition
      { mcBase with rows := [rowSpeaking2, rowQuiet1] }
      [] [rowQuiet1] rowSpeaking2 rfl rfl (by decide)).2 (by decide)
    rw [show (2 : Nat) = rowSpeaking2.user from rfl, h]

theorem updateRowState_invited (s : MCState) (u : Nat) :
    updateRowState s (newRow u) none =
      (s, { user := u, state := RowState.Invited, ssrc := 0, sounding := false,
            speaking := false, skipLevelUpdate := s.skipRowLevelUpdate }) := by
  simp only [updateRowState, updateSoundingMap, Row.updateState, ssrcOf, newRow]
  simp

theorem processInvite_existing (s : MCState) (u : Nat) (row : Row)
    (h : findRow s.rows u = some row) : processInvite s u = s := by
  simp [processInvite, createInvitedRow, h]

theorem processInvite_fresh (s : MCState) (u : Nat)
    (h : findRow s.rows u = none) :
    (processInvite s u).rows =
      s.rows ++ [{ user := u, state := RowState.Invited, ssrc := 0,
                   sounding := false, speaking := false,
                   skipLevelUpdate := s.skipRowLevelUpdate }] ∧
    (processInvite s u).selfId = s.selfId := by
  rw [processInvite, createInvitedRow, updateRowState_invited]
  simp only [h, Option.isSome_none]
  simp only [Bool.false_eq_true, if_false]
  refine ⟨?_, trivial⟩
  show peerListAppendRow s.rows _ = _
  rw [peerListAppendRow]
  simp only [h]
  simp [h]

theorem processInvite_mem_mono (s : MCState) (u w : Nat)
    (h : ∃ r ∈ s.rows, r.user = u) :
    ∃ r ∈ (processInvite s w).rows, r.user = u := by
  cases hf : findRow s.rows w with
  | some row => rw [processInvite_existing s w row hf]; exact h
  | none =>
      rw [((processInvite_fresh s w hf).1 :)]
      obtain ⟨r, hr, hru⟩ := h
      exact ⟨r, List.mem_append_left _ hr, hru⟩

theorem processInvite_mem_self (s : MCState) (u : Nat) :
    ∃ r ∈ (processInvite s u).rows, r.user = u := by
  cases hf : findRow s.rows u with
  | some row =>
      rw [processInvite_existing s u row hf]
      refine ⟨row, List.mem_of_find?_eq_some hf, ?_⟩
      have := List.find?_some hf
      simpa using this
  | none =>
      rw [((processInvite_fresh s u hf).1 :)]
      exact ⟨_, List.mem_append_right _ (List.mem_singleton_self _), rfl⟩

theorem appendInvitedUsers_mem (invited : List Nat) (s : MCState) (u : Nat)
    (h : (∃ r ∈ s.rows, r.user = u) ∨ u ∈ invited) :
    ∃ r ∈ (appendInvitedUsers s invited).rows, r.user = u := by
  induction invited generalizing s with
  | nil =>
      rcases h with h | h
      · simpa [appendInvitedUsers] using h
      · cases h
  | cons w rest ih =>
      rw [appendInvitedUsers, List.foldl_cons]
      rw [← appendInvitedUsers]
      rcases h with h | h
      · exact ih (processInvite s w) (Or.inl (processInvite_mem_mono s u w h))
      · rcases List.mem_cons.mp h with rfl | hr
        · exact ih (processInvite s u) (Or.inl (processInvite_mem_self s u))
        · exact ih (processInvite s w) (Or.inr hr)

theorem processInvite_countUser (s : MCState) (w x : Nat)
    (h : countUser s.rows x ≤ 1) :
    countUser (processInvite s w).rows x ≤ 1 := by
  cases hf : findRow s.rows w with
  | some row => rw [processInvite_existing s w row hf]; exact h
  | none =>
      rw [countUser, ((processInvite_fresh s w hf).1 :), List.filter_append,
        List.length_append]
      by_cases hx : x = w
      · subst hx
        have hnil : s.rows.filter (fun r => r.user == x) = [] := by
          rw [List.filter_eq_nil_iff]
          intro r hr
          rw [findRow, List.find?_eq_none] at hf
          exact hf r hr
        rw [hnil]
        simp
      · have hx2 : (w == x) = false := by
          simp only [beq_eq_false_iff_ne]
          exact fun hh => hx hh.symm
        rw [countUser] at h
        simpa [hx2] using h

theorem appendInvitedUsers_countUser (invited : List Nat) (s : MCState)
    (h : ∀ x, countUser s.rows x ≤ 1) :
    ∀ x, countUser (appendInvitedUsers s invited).rows x ≤ 1 := by
  induction invited generalizing s with
  | nil => simpa [appendInvitedUsers] using h
  | cons w rest ih =>
      rw [appendInvitedUsers, List.foldl_cons, ← appendInvitedUsers]
      exact ih (processInvite s w) (fun x => processInvite_countUser s w x (h x))

/-- C6: appendInvitedUsers appends one row in the Invited state for every
user currently invited to this call and, afterwards, one row for each
later invite event carrying this call's id; createInvitedRow returns null
when a row for that user already exists, so a user who already has a row
never gets a second row from an invite. -/
theorem c6_invited_rows (st : MCState) (u : Nat) (row : Row)
    (invited : List Nat) :
    (findRow st.rows u = some row → processInvite st u = st) ∧
    (findRow st.rows u = none →
      (processInvite st u).rows =
        st.rows ++ [{ user := u, state := RowState.Invited, ssrc := 0,
                      sounding := false, speaking := false,
                      skipLevelUpdate := st.skipRowLevelUpdate }]) ∧
    (u ∈ invited → ∃ r ∈ (appendInvitedUsers st invited).rows, r.user = u) ∧
    ((∀ x, countUser st.rows x ≤ 1) →
      ∀ x, countUser (appendInvitedUsers st invited).rows x ≤ 1) ∧
    (∀ iid rid, handleInvite st iid rid u =
      if iid == rid then processInvite st u else st) := by
  refine ⟨?_, ?_, ?_, ?_, ?_⟩
  · exact processInvite_existing st u row
  · intro h
    exact (processInvite_fresh st u h).1
  · intro h
    exact appendInvitedUsers_mem invited st u (Or.inr h)
  · exact appendInvitedUsers_countUser invited st
  · intro iid rid
    rfl

/-- Witness for c6_invited_rows: user 1 already has a row so its invite
is dropped; freshly invited user 3 gets exactly one Invited row; row
counts stay at most one. -/
theorem c6_invited_rows_witness :
    (processInvite { mcBase with rows := [rowQuiet1] } 1 =
      { mcBase with rows := [rowQuiet1] }) ∧
    ((processInvite { mcBase with rows := [rowQuiet1] } 3).rows =
      [rowQuiet1, { user := 3, state := RowState.Invited, ssrc := 0,
                    sounding := false, speaking := false,
                    skipLevelUpdate := false }]) ∧
    (∃ r ∈ (appendInvitedUsers { mcBase with rows := [rowQuiet1] } [1, 3]).rows,
      r.user = 3) ∧
    (∀ x, countUser
      (appendInvitedUsers { mcBase with rows := [rowQuiet1] } [1, 3]).rows x ≤ 1) ∧
    (handleInvite { mcBase with rows := [rowQuiet1] } 4 4 3 =
      processInvite { mcBase with rows := [rowQuiet1] } 3) := by
  have h := c6_invited_rows { mcBase with rows := [rowQuiet1] } 1 rowQuiet1 [1, 3]
  have h3 := c6_invited_rows { mcBase with rows := [rowQuiet1] } 3 rowQuiet1 [1, 3]
  refine ⟨h.1 (by decide), ?_, h3.2.2.1 (by decide), ?_, ?_⟩
  · rw [h3.2.1 (by decide)]
    rfl
  · intro x
    have hcount : ∀ y, countUser ({ mcBase with rows := [rowQuiet1] } : MCState).rows y ≤ 1 := by
      intro y
      rw [countUser]
      simpa using List.length_filter_le (fun r => r.user == y) [rowQuiet1]
    exact h.2.2.2.1 hcount x
  · rw [h3.2.2.2.2 4 4]
    rfl

theorem createRow_user (st : MCState) (p : Participant) :
    (createRow st p).2.user = p.user := by
  show (Row.updateState _ _).user = p.user
  rw [updateState_user]
  rfl

/-- Counterexample to C2 as stated: participant 3 joins with speaking set
but ssrc 0; the claim says the new row is prepended because the
participant is speaking, yet the code consults the created row's speaking
flag (false here, since ssrc is 0), so the row is appended. -/
theorem c2_counterexample :
    ({ user := 3, ssrc := 0, muted := false, sounding := false,
       speaking := true, canSelfUnmute := true } : Participant).speaking = true ∧
    findRow [rowQuiet1] 3 = none ∧
    (handleParticipantUpdated { mcBase with rows := [rowQuiet1] } none
        (some { user := 3, ssrc := 0, muted := false, sounding := false,
                speaking := true, canSelfUnmute := true })).rows =
      [rowQuiet1,
        { user := 3, state := RowState.Active, ssrc := 0, sounding := false,
          speaking := false, skipLevelUpdate := false }] ∧
    (handleParticipantUpdated { mcBase with rows := [rowQuiet1] } none
        (some { user := 3, ssrc := 0, muted := false, sounding := false,
                speaking := true, canSelfUnmute := true })).rows ≠
      ({ user := 3, state := RowState.Active, ssrc := 0, sounding := false,
         speaking := false, skipLevelUpdate := false } : Row) :: [rowQuiet1] := by
  decide

/-- C2 (amended): for every participantUpdated event: if the update has
no 'now' state (the participant left), the row of any user other than
self is removed from the list and from the sounding-row map, while the
self row is kept and updated with a null participant (becoming Invited);
if the update has a 'now' state and no row exists for that user, a new
row is created and is prepended to the list when the created row's
speaking flag is set (the participant is speaking with a nonzero ssrc in
the active state) and appended otherwise. -/
theorem c2_participant_updated (st : MCState) (was now : Participant)
    (wasOpt : Option Participant) :
    (∀ row, was.user ≠ st.selfId → findRow st.rows was.user = some row →
      handleParticipantUpdated st (some was) none =
        { st with
            soundingRowBySsrc := mapRemove st.soundingRowBySsrc row.ssrc,
            rows := st.rows.filter (fun x => x.user != was.user) }) ∧
    (∀ row, was.user = st.selfId → findRow st.rows was.user = some row →
      handleParticipantUpdated st (some was) none =
        { (updateRowState st row none).1 with
            rows := setRow st.rows (updateRowState st row none).2 } ∧
      (updateRowState st row none).2.user = row.user ∧
      (updateRowState st row none).2.state = RowState.Invited ∧
      (updateRowState st row none).2.sounding = false ∧
      (updateRowState st row none).2.speaking = false) ∧
    (findRow st.rows now.user = none →
      handleParticipantUpdated st wasOpt (some now) =
        (if (createRow st now).2.speaking = true then
          { (createRow st now).1 with rows := (createRow st now).2 :: st.rows }
        else
          { (createRow st now).1 with rows := st.rows ++ [(createRow st now).2] })) := by
  refine ⟨?_, ?_, ?_⟩
  · intro row hne hfind
    have hbeq : (was.user == st.selfId) = false := by simpa using hne
    have hru : row.user = was.user := by simpa using List.find?_some hfind
    simp only [handleParticipantUpdated]
    rw [hfind]
    simp only [hbeq]
    simp [removeRow, hru]
  · intro row hself hfind
    have hbeq : (was.user == st.selfId) = true := by simpa using hself
    refine ⟨?_, ?_, ?_, ?_, ?_⟩
    · simp only [handleParticipantUpdated]
      rw [hfind]
      simp only [hbeq]
      simp only [updateExistingRow]
      rfl
    · exact updateState_user _ none
    · rfl
    · rfl
    · rfl
  · intro hfind
    simp only [handleParticipantUpdated, updateRowPair]
    rw [hfind]
    by_cases hs : (createRow st now).2.speaking = true
    · rw [if_pos hs]
      show { (createRow st now).1 with
          rows := peerListPrependRow st.rows (createRow st now).2 } = _
      rw [if_pos hs]
      rw [peerListPrependRow, createRow_user, hfind]
      simp
    · rw [if_neg hs]
      have hs2 : (createRow st now).2.speaking = false := by
        simpa using hs
      show { (createRow st now).1 with
          rows := peerListAppendRow st.rows (createRow st now).2 } = _
      rw [hs2]
      simp only [Bool.false_eq_true, if_false]
      rw [peerListAppendRow, createRow_user, hfind]
      simp

/-- Witness for c2_participant_updated: user 2 leaves (row and sounding
entry dropped), self (user 1) leaves (row kept, becomes Invited), and a
muted user 3 joins (row appended). -/
theorem c2_participant_updated_witness :
    ((handleParticipantUpdated
        { mcBase with rows := [rowQuiet1, rowSpeaking2],
                      soundingRowBySsrc := [(5, 2)] }
        (some { user := 2, ssrc := 5, muted := false, sounding := true,
                speaking := true, canSelfUnmute := true }) none).rows =
      [rowQuiet1]) ∧
    ((handleParticipantUpdated { mcBase with rows := [rowQuiet1] }
        (some { user := 1, ssrc := 4, muted := false, sounding := false,
                speaking := false, canSelfUnmute := true }) none).rows =
      [{ user := 1, state := RowState.Invited, ssrc := 0, sounding := false,
         speaking := false, skipLevelUpdate := false }]) ∧
    ((handleParticipantUpdated { mcBase with rows := [rowQuiet1] } none
        (some { user := 3, ssrc := 6, muted := true, sounding := false,
                speaking := false, canSelfUnmute := false })).rows =
      [rowQuiet1,
        { user := 3, state := RowState.Muted, ssrc := 6, sounding := false,
          speaking := false, skipLevelUpdate := false }]) := by
  refine ⟨?_, ?_, ?_⟩
  · have h := (c2_participant_updated
      { mcBase with rows := [rowQuiet1, rowSpeaking2],
                    soundingRowBySsrc := [(5, 2)] }
      { user := 2, ssrc := 5, muted := false, sounding := true,
        speaking := true, canSelfUnmute := true }
      { user := 2, ssrc := 5, muted := false, sounding := true,
        speaking := true, canSelfUnmute := true }
      none).1 rowSpeaking2 (by decide) (by decide)
    rw [h]
    decide
  · have h := ((c2_participant_updated { mcBase with rows := [rowQuiet1] }
      { user := 1, ssrc := 4, muted := false, sounding := false,
        speaking := false, canSelfUnmute := true }
      { user := 1, ssrc := 4, muted := false, sounding := false,
        speaking := false, canSelfUnmute := true }
      none).2.1 rowQuiet1 (by decide) (by decide)).1
    rw [h]
    decide
  · have h := (c2_participant_updated { mcBase with rows := [rowQuiet1] }
      { user := 3, ssrc := 6, muted := true, sounding := false,
        speaking := false, canSelfUnmute := false }
      { user := 3, ssrc := 6, muted := true, sounding := false,
        speaking := false, canSelfUnmute := false }
      none).2.2 (by decide)
    rw [h]
    decide

/-- Witness for c9_menu_defers_reorder: a state with the menu open where
a non-speaking row sits above a speaking one (the check is deferred), a
destroyed menu whose pending peer stopped speaking (nothing happens), and
a destroyed menu whose pending peer still speaks (the deferred check
runs). -/
theorem c9_menu_defers_reorder_witness :
    ((checkSpeakingRowPosition
        { mcBase with rows := [rowQuiet1, rowSpeaking2], menuOpen := true }
        2).rows = [rowQuiet1, rowSpeaking2]) ∧
    ((handleMenuDestroyed
        { mcBase with rows := [rowQuiet1, { user := 2 }], menuOpen := true,
                      menuCheckRowsAfterHidden := [2] }).rows
      = [rowQuiet1, { user := 2 }]) ∧
    (handleMenuDestroyed
        { mcBase with rows := [rowQuiet1, rowSpeaking2], menuOpen := true,
                      menuCheckRowsAfterHidden := [2] } =
      checkSpeakingRowPosition
        { mcBase with rows := [rowQuiet1, rowSpeaking2] } 2) := by
  refine ⟨?_, ?_, ?_⟩
  · exact ((c9_menu_defers_reorder
      { mcBase with rows := [rowQuiet1, rowSpeaking2], menuOpen := true }
      mcBase 2 0).1 rfl).2.1
  · exact (c9_menu_defers_reorder mcBase
      { mcBase with rows := [rowQuiet1, { user := 2 }], menuOpen := true,
                    menuCheckRowsAfterHidden := [2] }
      0 0).2.1 (by decide)
  · exact (c9_menu_defers_reorder mcBase
      { mcBase with rows := [rowQuiet1, rowSpeaking2], menuOpen := true,
                    menuCheckRowsAfterHidden := [2] }
      0 2).2.2 rowSpeaking2 rfl (by decide) rfl

theorem prepareRowsLoop_selfId (pending : List Row) (s : MCState)
    (ps : List Participant) (fs ch : Bool) :
    (prepareRowsLoop s pending ps fs ch).1.selfId = s.selfId := by
  induction pending generalizing s fs ch with
  | nil => rfl
  | cons row rest ih =>
      simp only [prepareRowsLoop]
      by_cases h1 : (row.user == s.selfId) = true
      · rw [if_pos h1]; exact ih s true ch
      · rw [if_neg h1]
        by_cases h2 : (ps.any (fun p => p.user == row.user)) = true
        · rw [if_pos h2]; exact ih s fs ch
        · rw [if_neg h2]
          rw [ih (removeRow s row) fs true]
          rfl

theorem prepareRowsLoop_skip (pending : List Row) (s : MCState)
    (ps : List Participant) (fs ch : Bool) :
    (prepareRowsLoop s pending ps fs ch).1.skipRowLevelUpdate =
      s.skipRowLevelUpdate := by
  induction pending generalizing s fs ch with
  | nil => rfl
  | cons row rest ih =>
      simp only [prepareRowsLoop]
      by_cases h1 : (row.user == s.selfId) = true
      · rw [if_pos h1]; exact ih s true ch
      · rw [if_neg h1]
        by_cases h2 : (ps.any (fun p => p.user == row.user)) = true
        · rw [if_pos h2]; exact ih s fs ch
        · rw [if_neg h2]
          rw [ih (removeRow s row) fs true]
          rfl

theorem prepareRowsLoop_subset (pending : List Row) (s : MCState)
    (ps : List Participant) (fs ch : Bool) (x : Row)
    (hx : x ∈ (prepareRowsLoop s pending ps fs ch).1.rows) : x ∈ s.rows := by
  induction pending generalizing s fs ch with
  | nil => simpa [prepareRowsLoop] using hx
  | cons row rest ih =>
      simp only [prepareRowsLoop] at hx
      by_cases h1 : (row.user == s.selfId) = true
      · rw [if_pos h1] at hx; exact ih s true ch hx
      · rw [if_neg h1] at hx
        by_cases h2 : (ps.any (fun p => p.user == row.user)) = true
        · rw [if_pos h2] at hx; exact ih s fs ch hx
        · rw [if_neg h2] at hx
          exact List.mem_of_mem_filter (ih (removeRow s row) fs true hx)

theorem prepareRowsLoop_mem_self (pending : List Row) (s : MCState)
    (ps : List Participant) (fs ch : Bool) (x : Row)
    (hx : x ∈ s.rows) (hxu : x.user = s.selfId) :
    x ∈ (prepareRowsLoop s pending ps fs ch).1.rows := by
  induction pending generalizing s fs ch with
  | nil => simpa [prepareRowsLoop] using hx
  | cons row rest ih =>
      simp only [prepareRowsLoop]
      by_cases h1 : (row.user == s.selfId) = true
      · rw [if_pos h1]; exact ih s true ch hx hxu
      · rw [if_neg h1]
        by_cases h2 : (ps.any (fun p => p.user == row.user)) = true
        · rw [if_pos h2]; exact ih s fs ch hx hxu
        · rw [if_neg h2]
          refine ih (removeRow s row) fs true ?_ hxu
          show x ∈ List.filter _ s.rows
          rw [List.mem_filter]
          refine ⟨hx, ?_⟩
          have hne : row.user ≠ s.selfId := by simpa using h1
          rw [bne_iff_ne]
          rw [hxu]
          exact fun hh => hne hh.symm

theorem prepareRowsLoop_keep (pending : List Row) (s : MCState)
    (ps : List Participant) (fs ch : Bool) (sid : Nat) (hsid : s.selfId = sid)
    (h : ∀ r ∈ s.rows, r ∈ pending ∨ keepInPrepare sid ps r = true) :
    ∀ r ∈ (prepareRowsLoop s pending ps fs ch).1.rows,
      keepInPrepare sid ps r = true := by
  induction pending generalizing s fs ch with
  | nil =>
      intro r hr
      simp only [prepareRowsLoop] at hr
      rcases h r hr with h2 | h2
      · cases h2
      · exact h2
  | cons row rest ih =>
      intro r hr
      simp only [prepareRowsLoop] at hr
      by_cases h1 : (row.user == s.selfId) = true
      · rw [if_pos h1] at hr
        refine ih s true ch hsid ?_ r hr
        intro r2 hr2
        rcases h r2 hr2 with h3 | h3
        · rcases List.mem_cons.mp h3 with rfl | h4
          · right
            rw [keepInPrepare]
            rw [hsid] at h1
            simp [h1]
          · left; exact h4
        · right; exact h3
      · rw [if_neg h1] at hr
        by_cases h2 : (ps.any (fun p => p.user == row.user)) = true
        · rw [if_pos h2] at hr
          refine ih s fs ch hsid ?_ r hr
          intro r2 hr2
          rcases h r2 hr2 with h3 | h3
          · rcases List.mem_cons.mp h3 with rfl | h4
            · right
              rw [keepInPrepare]
              simp [h2]
            · left; exact h4
          · right; exact h3
        · rw [if_neg h2] at hr
          refine ih (removeRow s row) fs true hsid ?_ r hr
          intro r2 hr2
          have hr2m := List.mem_filter.mp hr2
          rcases h r2 hr2m.1 with h3 | h3
          · rcases List.mem_cons.mp h3 with rfl | h4
            · exact absurd hr2m.2 (by simp)
            · left; exact h4
          · right; exact h3

theorem prepareRowsLoop_flags (pending : List Row) (s : MCState)
    (ps : List Participant) (fs ch : Bool) (sid : Nat) (hsid : s.selfId = sid) :
    (prepareRowsLoop s pending ps fs ch).2.1
        = (fs || pending.any (fun r => r.user == sid)) ∧
    (prepareRowsLoop s pending ps fs ch).2.2
        = (ch || pending.any (fun r => !keepInPrepare sid ps r)) := by
  induction pending generalizing s fs ch with
  | nil => simp [prepareRowsLoop]
  | cons row rest ih =>
      simp only [prepareRowsLoop, List.any_cons]
      by_cases h1 : (row.user == s.selfId) = true
      · rw [if_pos h1]
        obtain ⟨ha, hb⟩ := ih s true ch hsid
        have h1s : (row.user == sid) = true := by rw [← hsid]; exact h1
        have hk : keepInPrepare sid ps row = true := by
          rw [keepInPrepare]; simp [h1s]
        constructor
        · rw [ha, h1s]; simp
        · rw [hb, hk]; simp
      · rw [if_neg h1]
        have h1s : (row.user == sid) = false := by
          rw [← hsid]; simpa using h1
        by_cases h2 : (ps.any (fun p => p.user == row.user)) = true
        · rw [if_pos h2]
          obtain ⟨ha, hb⟩ := ih s fs ch hsid
          have hk : keepInPrepare sid ps row = true := by
            rw [keepInPrepare]; simp [h2]
          constructor
          · rw [ha, h1s]; simp
          · rw [hb, hk]; simp
        · rw [if_neg h2]
          obtain ⟨ha, hb⟩ := ih (removeRow s row) fs true hsid
          have h2f : (ps.any (fun p => p.user == row.user)) = false := by
            simpa using h2
          have hk : keepInPrepare sid ps row = false := by
            rw [keepInPrepare]; simp [h1s, h2f]
          constructor
          · rw [ha, h1s]; simp
          · rw [hb, hk]; simp

theorem peerListAppendRow_cases (rows : List Row) (r x : Row)
    (hx : x ∈ peerListAppendRow rows r) : x ∈ rows ∨ x = r := by
  rw [peerListAppendRow] at hx
  by_cases hf : (findRow rows r.user).isSome = true
  · rw [if_pos hf] at hx; exact Or.inl hx
  · rw [if_neg hf] at hx
    rcases List.mem_append.mp hx with h | h
    · exact Or.inl h
    · exact Or.inr (by simpa using h)

theorem peerListAppendRow_mono (rows : List Row) (r x : Row)
    (hx : x ∈ rows) : x ∈ peerListAppendRow rows r := by
  rw [peerListAppendRow]
  by_cases hf : (findRow rows r.user).isSome = true
  · rw [if_pos hf]; exact hx
  · rw [if_neg hf]; exact List.mem_append_left _ hx

theorem peerListAppendRow_user (rows : List Row) (r : Row) :
    ∃ x ∈ peerListAppendRow rows r, x.user = r.user := by
  by_cases hf : (findRow rows r.user).isSome = true
  · rw [peerListAppendRow, if_pos hf]
    obtain ⟨y, hy⟩ := Option.isSome_iff_exists.mp hf
    refine ⟨y, List.mem_of_find?_eq_some hy, ?_⟩
    simpa using List.find?_some hy
  · rw [peerListAppendRow, if_neg hf]
    exact ⟨r, List.mem_append_right _ (List.mem_singleton_self _), rfl⟩

theorem pass3_mem (ps : List Participant) (acc : MCState × Bool) (x : Row)
    (hx : x ∈ acc.1.rows) : x ∈ (ps.foldl prepareStep acc).1.rows := by
  induction ps generalizing acc with
  | nil => simpa using hx
  | cons q rest ih =>
      rw [List.foldl_cons]
      exact ih (prepareStep acc q)
        (peerListAppendRow_mono acc.1.rows (createRow acc.1 q).2 x hx)

theorem pass3_exists_mem (ps : List Participant) (acc : MCState × Bool)
    (u : Nat) (h : ∃ x ∈ acc.1.rows, x.user = u) :
    ∃ x ∈ (ps.foldl prepareStep acc).1.rows, x.user = u := by
  obtain ⟨x, hx, hxu⟩ := h
  exact ⟨x, pass3_mem ps acc x hx, hxu⟩

theorem pass3_participants (ps : List Participant) (acc : MCState × Bool) :
    ∀ p ∈ ps, ∃ x ∈ (ps.foldl prepareStep acc).1.rows, x.user = p.user := by
  induction ps generalizing acc with
  | nil => intro p hp; cases hp
  | cons q rest ih =>
      intro p hp
      rw [List.foldl_cons]
      rcases List.mem_cons.mp hp with rfl | h
      · apply pass3_exists_mem
        have h2 := peerListAppendRow_user acc.1.rows (createRow acc.1 p).2
        rw [createRow_user] at h2
        exact h2
      · exact ih (prepareStep acc q) p h

theorem pass3_from (ps : List Participant) (acc : MCState × Bool) (x : Row)
    (hx : x ∈ (ps.foldl prepareStep acc).1.rows) :
    x ∈ acc.1.rows ∨ ∃ p ∈ ps, x.user = p.user := by
  induction ps generalizing acc with
  | nil => exact Or.inl (by simpa using hx)
  | cons q rest ih =>
      rw [List.foldl_cons] at hx
      rcases ih (prepareStep acc q) hx with h | h
      · rcases peerListAppendRow_cases acc.1.rows (createRow acc.1 q).2 x h with
          h2 | h2
        · exact Or.inl h2
        · right
          exact ⟨q, List.mem_cons_self _ _, by rw [h2, createRow_user]⟩
      · right
        obtain ⟨p, hp, hpu⟩ := h
        exact ⟨p, List.mem_cons_of_mem _ hp, hpu⟩

theorem pass3_changed (ps : List Participant) (acc : MCState × Bool) :
    (ps.foldl prepareStep acc).2 = (acc.2 || !ps.isEmpty) := by
  induction ps generalizing acc with
  | nil => simp
  | cons q rest ih =>
      rw [List.foldl_cons, ih (prepareStep acc q)]
      have h2 : (prepareStep acc q).2 = true := rfl
      rw [h2]
      simp

theorem keepInPrepare_iff (sid : Nat) (ps : List Participant) (r : Row) :
    keepInPrepare sid ps r = true ↔
      (r.user = sid ∨ ∃ p ∈ ps, r.user = p.user) := by
  rw [keepInPrepare, Bool.or_eq_true, List.any_eq_true]
  constructor
  · rintro (h | ⟨p, hp, hpe⟩)
    · exact Or.inl (by simpa using h)
    · exact Or.inr ⟨p, hp, by simpa using (beq_iff_eq.mp hpe).symm⟩
  · rintro (h | ⟨p, hp, hpe⟩)
    · exact Or.inl (by simpa using h)
    · exact Or.inr ⟨p, hp, by simp [hpe]⟩

theorem createSelfRow_eq (s : MCState) :
    createSelfRow s =
      (s, { user := s.selfId, state := RowState.Invited, ssrc := 0,
            sounding := false, speaking := false,
            skipLevelUpdate := s.skipRowLevelUpdate }) :=
  updateRowState_invited s s.selfId

theorem prepareSelfAppend_self (s : MCState) (ps : List Participant) :
    ∃ r ∈ (prepareSelfAppend s ps).rows, r.user = s.selfId := by
  rw [prepareSelfAppend]
  cases hf : ps.find? (fun p => p.user == s.selfId) with
  | some p =>
      have hpu : p.user = s.selfId := by simpa using List.find?_some hf
      have h2 := peerListAppendRow_user (createRow s p).1.rows (createRow s p).2
      rw [createRow_user] at h2
      obtain ⟨x, hx, hxu⟩ := h2
      exact ⟨x, hx, by rw [hxu, hpu]⟩
  | none =>
      have h2 := peerListAppendRow_user (createSelfRow s).1.rows (createSelfRow s).2
      have hu : (createSelfRow s).2.user = s.selfId := by
        rw [createSelfRow_eq]
      rw [hu] at h2
      exact h2

theorem prepareSelfAppend_from (s : MCState) (ps : List Participant) (x : Row)
    (hx : x ∈ (prepareSelfAppend s ps).rows) :
    x ∈ s.rows ∨ x.user = s.selfId ∨ ∃ p ∈ ps, x.user = p.user := by
  rw [prepareSelfAppend] at hx
  cases hf : ps.find? (fun p => p.user == s.selfId) with
  | some p =>
      rw [hf] at hx
      rcases peerListAppendRow_cases (createRow s p).1.rows (createRow s p).2 x hx
        with h | h
      · exact Or.inl h
      · right; right
        exact ⟨p, List.mem_of_find?_eq_some hf, by rw [h, createRow_user]⟩
  | none =>
      rw [hf] at hx
      rcases peerListAppendRow_cases (createSelfRow s).1.rows (createSelfRow s).2
          x hx with h | h
      · exact Or.inl h
      · right; left
        rw [h, createSelfRow_eq]

/-- Counterexample to C4 as stated: with a self row and a row for
participant 2 already present, prepareRows leaves the state completely
unchanged (no row added or removed), yet refreshes the row list, because
the final pass sets `changed` for every participant whose createRow
returned a row, which it always does. -/
theorem c4_prepareRows_counterexample :
    (prepareRows { mcBase with rows := [rowQuiet1, rowActive2] }
        [partQuiet2]).1 =
      { mcBase with rows := [rowQuiet1, rowActive2] } ∧
    (prepareRows { mcBase with rows := [rowQuiet1, rowActive2] }
        [partQuiet2]).2 = true := by
  decide

/-- C4 (amended): after prepareRows runs against the real call's
participant list, every row other than the self row corresponds to a user
in that participant list (rows of users no longer in it are removed), a
self row is present (built from self's participant record when self is a
participant, otherwise as a connecting Invited self row), and each
participant in the list has a row; the row list is refreshed when at
least one row was removed, when the self row was appended, or whenever
the participant list is non-empty (a refresh is triggered for every
participant row-creation attempt, even when no row is actually added). -/
theorem c4_prepareRows (st : MCState) (participants : List Participant) :
    (∀ r ∈ (prepareRows st participants).1.rows,
      r.user = st.selfId ∨ ∃ p ∈ participants, r.user = p.user) ∧
    (∃ r ∈ (prepareRows st participants).1.rows, r.user = st.selfId) ∧
    (∀ p ∈ participants,
      ∃ r ∈ (prepareRows st participants).1.rows, r.user = p.user) ∧
    (st.rows.any (fun r => r.user == st.selfId) = false →
      participants.find? (fun q => q.user == st.selfId) = none →
      ∃ r ∈ (prepareRows st participants).1.rows,
        r.user = st.selfId ∧ r.state = RowState.Invited) ∧
    (st.rows.any (fun r => r.user == st.selfId) = false →
      ∀ p, participants.find? (fun q => q.user == st.selfId) = some p →
      ∃ r ∈ (prepareRows st participants).1.rows,
        r = Row.updateState
          { user := p.user, skipLevelUpdate := st.skipRowLevelUpdate }
          (some p)) ∧
    ((prepareRows st participants).2 =
      (st.rows.any (fun r => !keepInPrepare st.selfId participants r)
        || !st.rows.any (fun r => r.user == st.selfId)
        || !participants.isEmpty)) := by
  have hflags := prepareRowsLoop_flags st.rows st participants false false
    st.selfId rfl
  have hsid : (prepareRowsLoop st st.rows participants false false).1.selfId
      = st.selfId := prepareRowsLoop_selfId st.rows st participants false false
  have hskip :
      (prepareRowsLoop st st.rows participants false false).1.skipRowLevelUpdate
      = st.skipRowLevelUpdate :=
    prepareRowsLoop_skip st.rows st participants false false
  refine ⟨?_, ?_, ?_, ?_, ?_, ?_⟩
  · intro r hr
    rcases pass3_from participants (prepareMiddle st participants) r hr with
      h | h
    · by_cases hfs :
        (prepareRowsLoop st st.rows participants false false).2.1 = true
      · rw [prepareMiddle, if_pos hfs] at h
        have hkeep := prepareRowsLoop_keep st.rows st participants false false
          st.selfId rfl (fun r2 hr2 => Or.inl hr2) r h
        exact (keepInPrepare_iff st.selfId participants r).mp hkeep
      · rw [prepareMiddle, if_neg hfs] at h
        rcases prepareSelfAppend_from _ participants r h with h2 | h2 | h2
        · have hkeep := prepareRowsLoop_keep st.rows st participants false false
            st.selfId rfl (fun r2 hr2 => Or.inl hr2) r h2
          exact (keepInPrepare_iff st.selfId participants r).mp hkeep
        · rw [hsid] at h2
          exact Or.inl h2
        · exact Or.inr h2
    · exact Or.inr h
  · apply pass3_exists_mem
    by_cases hfs :
        (prepareRowsLoop st st.rows participants false false).2.1 = true
    · have hany : st.rows.any (fun r => r.user == st.selfId) = true := by
        have h2 := hflags.1
        rw [hfs] at h2
        simpa using h2.symm
      rw [List.any_eq_true] at hany
      obtain ⟨x, hx, hxu⟩ := hany
      have hxu2 : x.user = st.selfId := by simpa using hxu
      refine ⟨x, ?_, hxu2⟩
      rw [prepareMiddle, if_pos hfs]
      exact prepareRowsLoop_mem_self st.rows st participants false false x hx
        hxu2
    · rw [prepareMiddle, if_neg hfs]
      have h2 := prepareSelfAppend_self
        (prepareRowsLoop st st.rows participants false false).1 participants
      rw [hsid] at h2
      exact h2
  · exact pass3_participants participants (prepareMiddle st participants)
  · intro hany hfind
    have hfs : (prepareRowsLoop st st.rows participants false false).2.1
        = false := by
      rw [hflags.1, hany]
      rfl
    have hfind2 : participants.find?
        (fun p => p.user ==
          (prepareRowsLoop st st.rows participants false false).1.selfId)
        = none := by
      simp only [hsid]
      exact hfind
    have hnone : findRow
        (prepareRowsLoop st st.rows participants false false).1.rows
        (prepareRowsLoop st st.rows participants false false).1.selfId
        = none := by
      rw [findRow, List.find?_eq_none]
      intro x hxm
      rw [hsid]
      have hxst := prepareRowsLoop_subset st.rows st participants false false
        x hxm
      rw [List.any_eq_false] at hany
      exact hany x hxst
    have hnone3 : findRow
        (createSelfRow
          (prepareRowsLoop st st.rows participants false false).1).1.rows
        (createSelfRow
          (prepareRowsLoop st st.rows participants false false).1).2.user
        = none := hnone
    have hmem : (createSelfRow
        (prepareRowsLoop st st.rows participants false false).1).2 ∈
        (prepareMiddle st participants).1.rows := by
      rw [prepareMiddle, if_neg (by simp [hfs])]
      show _ ∈ (prepareSelfAppend _ participants).rows
      rw [prepareSelfAppend, hfind2]
      show _ ∈ peerListAppendRow _ _
      rw [peerListAppendRow, if_neg (by simp [hnone3])]
      exact List.mem_append_right _ (List.mem_singleton_self _)
    refine ⟨_, pass3_mem participants (prepareMiddle st participants) _ hmem,
      ?_, ?_⟩
    · rw [createSelfRow_eq]
      exact hsid
    · rw [createSelfRow_eq]
  · intro hany p hfind
    have hfs : (prepareRowsLoop st st.rows participants false false).2.1
        = false := by
      rw [hflags.1, hany]
      rfl
    have hfind2 : participants.find?
        (fun q => q.user ==
          (prepareRowsLoop st st.rows participants false false).1.selfId)
        = some p := by
      simp only [hsid]
      exact hfind
    have hpu : p.user = st.selfId := by
      simpa using List.find?_some hfind
    have hnone : findRow
        (prepareRowsLoop st st.rows participants false false).1.rows
        p.user = none := by
      rw [findRow, List.find?_eq_none]
      intro x hxm
      rw [hpu]
      have hxst := prepareRowsLoop_subset st.rows st participants false false
        x hxm
      rw [List.any_eq_false] at hany
      exact hany x hxst
    have hnone2 : findRow
        (createRow (prepareRowsLoop st st.rows participants false false).1
          p).1.rows p.user = none := hnone
    have hval : (createRow
          (prepareRowsLoop st st.rows participants false false).1 p).2 =
        Row.updateState
          { user := p.user, skipLevelUpdate := st.skipRowLevelUpdate }
          (some p) := by
      have hval0 : (createRow
            (prepareRowsLoop st st.rows participants false false).1 p).2 =
          Row.updateState
            { user := p.user,
              skipLevelUpdate := (prepareRowsLoop st st.rows participants
                false false).1.skipRowLevelUpdate }
            (some p) := rfl
      rw [hval0, hskip]
    refine ⟨_, pass3_mem participants (prepareMiddle st participants) _ ?_,
      hval⟩
    rw [prepareMiddle, if_neg (by simp [hfs])]
    show _ ∈ (prepareSelfAppend _ participants).rows
    rw [prepareSelfAppend, hfind2]
    show _ ∈ peerListAppendRow _ _
    rw [peerListAppendRow, createRow_user, if_neg (by simp [hnone2])]
    exact List.mem_append_right _ (List.mem_singleton_self _)
  · rw [prepareRows, pass3_changed participants (prepareMiddle st participants)]
    by_cases hfs :
        (prepareRowsLoop st st.rows participants false false).2.1 = true
    · have hmid : (prepareMiddle st participants).2 =
          (prepareRowsLoop st st.rows participants false false).2.2 := by
        rw [prepareMiddle, if_pos hfs]
      have hany : st.rows.any (fun r => r.user == st.selfId) = true := by
        have h2 := hflags.1
        rw [hfs] at h2
        simpa using h2.symm
      rw [hmid, hflags.2, hany]
      simp
    · have hmid : (prepareMiddle st participants).2 = true := by
        rw [prepareMiddle, if_neg hfs]
      have hany : st.rows.any (fun r => r.user == st.selfId) = false := by
        have h2 := hflags.1
        rw [Bool.false_or] at h2
        rw [← h2]
        simpa using hfs
      rw [hmid, hany]
      simp

/-- Witness for c4_prepareRows at concrete states: participant 2 gets a
row, the self row survives, a connecting Invited self row is appended
when self is absent everywhere, the self row is built from self's record
when self is a participant, kept rows are self-or-participant rows, and
the refresh flag equation holds. -/
theorem c4_prepareRows_witness :
    (∃ r ∈ (prepareRows { mcBase with rows := [rowQuiet1] }
        [partQuiet2]).1.rows, r.user = partQuiet2.user) ∧
    (∃ r ∈ (prepareRows { mcBase with rows := [rowQuiet1] }
        [partQuiet2]).1.rows, r.user = 1) ∧
    (∃ r ∈ (prepareRows mcBase []).1.rows,
      r.user = 1 ∧ r.state = RowState.Invited) ∧
    (∃ r ∈ (prepareRows mcBase [partSelf1]).1.rows,
      r = Row.updateState { user := partSelf1.user, skipLevelUpdate := false }
        (some partSelf1)) ∧
    (rowActive2.user = 1 ∨ ∃ p ∈ [partQuiet2], rowActive2.user = p.user) ∧
    ((prepareRows { mcBase with rows := [rowQuiet1] } [partQuiet2]).2 = true) := by
  refine ⟨?_, ?_, ?_, ?_, ?_, ?_⟩
  · exact (c4_prepareRows { mcBase with rows := [rowQuiet1] }
      [partQuiet2]).2.2.1 partQuiet2 (by decide)
  · exact (c4_prepareRows { mcBase with rows := [rowQuiet1] }
      [partQuiet2]).2.1
  · exact (c4_prepareRows mcBase []).2.2.2.1 (by decide) (by decide)
  · exact (c4_prepareRows mcBase [partSelf1]).2.2.2.2.1 (by decide) partSelf1
      (by decide)
  · exact (c4_prepareRows { mcBase with rows := [rowQuiet1] }
      [partQuiet2]).1 rowActive2 (by decide)
  · have h := (c4_prepareRows { mcBase with rows := [rowQuiet1] }
      [partQuiet2]).2.2.2.2.2
    rw [h]
    decide

theorem rowsWF_symm :
    Symmetric (fun a b : Row => a.user ≠ b.user ∧ (a.ssrc = b.ssrc → a.ssrc = 0)) := by
  intro x y h
  refine ⟨h.1.symm, ?_⟩
  intro he
  rw [he]
  exact h.2 he.symm

theorem rowsWF_pair (rows : List Row) (hwf : rowsWellFormed rows) :
    ∀ a ∈ rows, ∀ b ∈ rows, a ≠ b →
      a.user ≠ b.user ∧ (a.ssrc = b.ssrc → a.ssrc = 0) := by
  intro a ha b hb hne
  exact List.Pairwise.forall rowsWF_symm hwf ha hb hne

theorem rowsWF_user_inj (rows : List Row) (hwf : rowsWellFormed rows) :
    ∀ a ∈ rows, ∀ b ∈ rows, a.user = b.user → a = b := by
  intro a ha b hb he
  by_contra hne
  exact (rowsWF_pair rows hwf a ha b hb hne).1 he

theorem mem_middle_of_mem_sides {r c : Row} {l1 l2 : List Row}
    (h : r ∈ l1 ++ l2) : r ∈ l1 ++ c :: l2 := by
  rcases List.mem_append.mp h with h2 | h2
  · exact List.mem_append_left _ h2
  · exact List.mem_append_right _ (List.mem_cons_of_mem _ h2)

theorem mem_sides_of_mem_middle {r c : Row} {l1 l2 : List Row}
    (h : r ∈ l1 ++ c :: l2) (hne : r ≠ c) : r ∈ l1 ++ l2 := by
  rcases List.mem_append.mp h with h2 | h2
  · exact List.mem_append_left _ h2
  · rcases List.mem_cons.mp h2 with h3 | h3
    · exact absurd h3 hne
    · exact List.mem_append_right _ h3

theorem mapRemove_mem (m : List (Nat × Nat)) (k : Nat) (e : Nat × Nat) :
    e ∈ mapRemove m k ↔ e ∈ m ∧ e.1 ≠ k := by
  rw [mapRemove, List.mem_filter]
  simp

theorem mapContains_false (m : List (Nat × Nat)) (k : Nat)
    (h : ∀ e ∈ m, e.1 ≠ k) : mapContains m k = false := by
  rw [mapContains, List.any_eq_false]
  intro e he
  simpa using h e he

theorem mapEmplace_eq (m : List (Nat × Nat)) (k v : Nat)
    (h : mapContains m k = false) : mapEmplace m k v = (k, v) :: m := by
  simp [mapEmplace, h]

theorem setRow_skip (l : List Row) (u : Nat) (r : Row)
    (h : ∀ x ∈ l, x.user ≠ u) :
    (l.map fun x => if x.user == u then r else x) = l := by
  induction l with
  | nil => rfl
  | cons a rest ih =>
      rw [List.map_cons]
      rw [if_neg (by simpa using h a (List.mem_cons_self a rest))]
      rw [ih (fun x hx => h x (List.mem_cons_of_mem a hx))]

theorem setRow_eq (l1 l2 : List Row) (row row2 : Row)
    (hu : row2.user = row.user)
    (h1 : ∀ x ∈ l1, x.user ≠ row.user)
    (h2 : ∀ x ∈ l2, x.user ≠ row.user) :
    setRow (l1 ++ row :: l2) row2 = l1 ++ row2 :: l2 := by
  rw [setRow, List.map_append, List.map_cons]
  rw [setRow_skip l1 row2.user row2 (fun x hx => by rw [hu]; exact h1 x hx)]
  rw [if_pos (by simp [hu])]
  rw [setRow_skip l2 row2.user row2 (fun x hx => by rw [hu]; exact h2 x hx)]

theorem mapEmplace_mono (m : List (Nat × Nat)) (k v : Nat) (e : Nat × Nat)
    (h : e ∈ m) : e ∈ mapEmplace m k v := by
  rw [mapEmplace]
  by_cases hc : mapContains m k = true
  · rw [if_pos hc]; exact h
  · rw [if_neg hc]; exact List.mem_cons_of_mem _ h

theorem soundingMap_core
    (m : List (Nat × Nat)) (l1 l2 : List Row) (row row2 : Row)
    (hu : row2.user = row.user)
    (hz : row2.sounding = true → row2.ssrc ≠ 0)
    (hwf : rowsWellFormed (l1 ++ row :: l2))
    (hA : ∀ e ∈ m, e.1 ≠ 0 ∧ ∃ r ∈ l1 ++ row :: l2,
      r.user = e.2 ∧ r.sounding = true ∧ r.ssrc = e.1)
    (hB : ∀ r ∈ l1 ++ row :: l2, r.sounding = true → (r.ssrc, r.user) ∈ m)
    (hfresh : ∀ x ∈ l1 ++ l2, x.ssrc = row2.ssrc → row2.ssrc = 0) :
    rowsWellFormed (l1 ++ row2 :: l2) ∧
    (∀ e ∈ updateSoundingMap m row2.user row.ssrc row2.ssrc row.sounding
        row2.sounding,
      e.1 ≠ 0 ∧ ∃ r ∈ l1 ++ row2 :: l2,
        r.user = e.2 ∧ r.sounding = true ∧ r.ssrc = e.1) ∧
    (∀ r ∈ l1 ++ row2 :: l2, r.sounding = true →
      (r.ssrc, r.user) ∈ updateSoundingMap m row2.user row.ssrc row2.ssrc
        row.sounding row2.sounding) := by
  have hwfP : (l1 ++ row :: l2).Pairwise
      (fun a b => a.user ≠ b.user ∧ (a.ssrc = b.ssrc → a.ssrc = 0)) := by
    rw [rowsWellFormed] at hwf
    exact hwf
  have hmid := (List.pairwise_middle (fun h => rowsWF_symm h)).mp hwfP
  have hrowO := (List.pairwise_cons.mp hmid).1
  have hwfO := (List.pairwise_cons.mp hmid).2
  have hrowmem : row ∈ l1 ++ row :: l2 :=
    List.mem_append_right _ (List.mem_cons_self _ _)
  have hrow2mem : row2 ∈ l1 ++ row2 :: l2 :=
    List.mem_append_right _ (List.mem_cons_self _ _)
  have hcontSame : row.ssrc = row2.ssrc → row.sounding = false →
      mapContains m row2.ssrc = false := by
    intro hsame2 hwasnot
    apply mapContains_false
    intro e2 he2 heq
    obtain ⟨hk0, r, hrm, hru, hrs, hrq⟩ := hA e2 he2
    have hrner : r ≠ row := by
      intro hh
      rw [hh] at hrs
      rw [hrs] at hwasnot
      cases hwasnot
    have hpair := rowsWF_pair _ hwf r hrm row hrowmem hrner
    apply hk0
    rw [← hrq]
    apply hpair.2
    rw [hrq, heq, ← hsame2]
  have hcontDiff : row.ssrc ≠ row2.ssrc → row2.sounding = true →
      mapContains (mapRemove m row.ssrc) row2.ssrc = false := by
    intro hsame2 hns
    apply mapContains_false
    intro e2 he2 heq
    obtain ⟨hin2, hne2⟩ := (mapRemove_mem m row.ssrc e2).mp he2
    obtain ⟨hk0, r, hrm, hru, hrs, hrq⟩ := hA e2 hin2
    have hrner : r ≠ row := by
      intro hh
      apply hne2
      rw [← hrq, hh]
    have hrO : r ∈ l1 ++ l2 := mem_sides_of_mem_middle hrm hrner
    have h0 := hfresh r hrO (by rw [hrq, heq])
    exact hz hns h0
  refine ⟨?_, ?_, ?_⟩
  · rw [rowsWellFormed]
    rw [List.pairwise_middle (fun h => rowsWF_symm h), List.pairwise_cons]
    constructor
    · intro x hx
      refine ⟨?_, ?_⟩
      · rw [hu]
        exact (hrowO x hx).1
      · intro he
        exact hfresh x hx he.symm
    · exact hwfO
  · intro e he
    rw [updateSoundingMap] at he
    by_cases hsame : (row.ssrc == row2.ssrc) = true
    · have hsame2 : row.ssrc = row2.ssrc := by simpa using hsame
      rw [if_pos hsame] at he
      by_cases hch : (row2.sounding != row.sounding) = true
      · rw [if_pos hch] at he
        by_cases hns : row2.sounding = true
        · rw [if_pos hns] at he
          have hwasnot : row.sounding = false := by
            cases hb : row.sounding
            · rfl
            · rw [hns, hb] at hch
              simp at hch
          rw [mapEmplace_eq m row2.ssrc row2.user (hcontSame hsame2 hwasnot)]
            at he
          rcases List.mem_cons.mp he with rfl | hin
          · exact ⟨hz hns, row2, hrow2mem, rfl, hns, rfl⟩
          · obtain ⟨hk0, r, hrm, hru, hrs, hrq⟩ := hA e hin
            have hrner : r ≠ row := by
              intro hh
              rw [hh] at hrs
              rw [hrs] at hwasnot
              cases hwasnot
            exact ⟨hk0, r,
              mem_middle_of_mem_sides (mem_sides_of_mem_middle hrm hrner),
              hru, hrs, hrq⟩
        · rw [if_neg hns] at he
          obtain ⟨hin, hne⟩ := (mapRemove_mem m row2.ssrc e).mp he
          obtain ⟨hk0, r, hrm, hru, hrs, hrq⟩ := hA e hin
          have hrner : r ≠ row := by
            intro hh
            apply hne
            rw [← hrq, hh, hsame2]
          exact ⟨hk0, r,
            mem_middle_of_mem_sides (mem_sides_of_mem_middle hrm hrner),
            hru, hrs, hrq⟩
      · rw [if_neg hch] at he
        have hchsame : row2.sounding = row.sounding := by
          simpa using hch
        obtain ⟨hk0, r, hrm, hru, hrs, hrq⟩ := hA e he
        by_cases hreq : r = row
        · subst hreq
          refine ⟨hk0, row2, hrow2mem, ?_, ?_, ?_⟩
          · rw [hu]
            exact hru
          · rw [hchsame]
            exact hrs
          · rw [← hsame2]
            exact hrq
        · exact ⟨hk0, r,
            mem_middle_of_mem_sides (mem_sides_of_mem_middle hrm hreq),
            hru, hrs, hrq⟩
    · have hsame2 : row.ssrc ≠ row2.ssrc := by simpa using hsame
      rw [if_neg hsame] at he
      by_cases hns : row2.sounding = true
      · rw [if_pos hns] at he
        rw [mapEmplace_eq _ row2.ssrc row2.user (hcontDiff hsame2 hns)] at he
        rcases List.mem_cons.mp he with rfl | hin
        · exact ⟨hz hns, row2, hrow2mem, rfl, hns, rfl⟩
        · obtain ⟨hin2, hne2⟩ := (mapRemove_mem m row.ssrc e).mp hin
          obtain ⟨hk0, r, hrm, hru, hrs, hrq⟩ := hA e hin2
          have hrner : r ≠ row := by
            intro hh
            apply hne2
            rw [← hrq, hh]
          exact ⟨hk0, r,
            mem_middle_of_mem_sides (mem_sides_of_mem_middle hrm hrner),
            hru, hrs, hrq⟩
      · rw [if_neg hns] at he
        obtain ⟨hin2, hne2⟩ := (mapRemove_mem m row.ssrc e).mp he
        obtain ⟨hk0, r, hrm, hru, hrs, hrq⟩ := hA e hin2
        have hrner : r ≠ row := by
          intro hh
          apply hne2
          rw [← hrq, hh]
        exact ⟨hk0, r,
          mem_middle_of_mem_sides (mem_sides_of_mem_middle hrm hrner),
          hru, hrs, hrq⟩
  · intro r hr hs
    rw [updateSoundingMap]
    by_cases hreq : r = row2
    · subst hreq
      by_cases hsame : (row.ssrc == r.ssrc) = true
      · have hsame2 : row.ssrc = r.ssrc := by simpa using hsame
        rw [if_pos hsame]
        by_cases hch : (r.sounding != row.sounding) = true
        · rw [if_pos hch, if_pos hs]
          have hwasnot : row.sounding = false := by
            cases hb : row.sounding
            · rfl
            · rw [hs, hb] at hch
              simp at hch
          rw [mapEmplace_eq m r.ssrc r.user (hcontSame hsame2 hwasnot)]
          exact List.mem_cons_self _ _
        · rw [if_neg hch]
          have hchsame : r.sounding = row.sounding := by simpa using hch
          have hrowS : row.sounding = true := by
            rw [← hchsame]
            exact hs
          have hbm := hB row hrowmem hrowS
          rw [hu, ← hsame2]
          exact hbm
      · have hsame2 : row.ssrc ≠ r.ssrc := by simpa using hsame
        rw [if_neg hsame, if_pos hs]
        rw [mapEmplace_eq _ r.ssrc r.user (hcontDiff hsame2 hs)]
        exact List.mem_cons_self _ _
    · have hrO : r ∈ l1 ++ l2 := mem_sides_of_mem_middle hr hreq
      have hrmem : r ∈ l1 ++ row :: l2 := mem_middle_of_mem_sides hrO
      have hbm := hB r hrmem hs
      have hrnz : r.ssrc ≠ 0 := (hA _ hbm).1
      have hrner : r ≠ row := by
        intro hh
        exact (hrowO r hrO).1 (by rw [hh])
      have hpair := rowsWF_pair _ hwf row hrowmem r hrmem
        (fun hh => hrner hh.symm)
      have hrne_ssrc : r.ssrc ≠ row.ssrc := by
        intro hh
        apply hrnz
        rw [hh]
        exact hpair.2 hh.symm
      by_cases hsame : (row.ssrc == row2.ssrc) = true
      · have hsame2 : row.ssrc = row2.ssrc := by simpa using hsame
        rw [if_pos hsame]
        by_cases hch : (row2.sounding != row.sounding) = true
        · rw [if_pos hch]
          by_cases hns : row2.sounding = true
          · rw [if_pos hns]
            exact mapEmplace_mono m row2.ssrc row2.user _ hbm
          · rw [if_neg hns]
            apply (mapRemove_mem m row2.ssrc _).mpr
            refine ⟨hbm, ?_⟩
            show r.ssrc ≠ row2.ssrc
            rw [← hsame2]
            exact hrne_ssrc
        · rw [if_neg hch]
          exact hbm
      · rw [if_neg hsame]
        by_cases hns : row2.sounding = true
        · rw [if_pos hns]
          apply mapEmplace_mono
          apply (mapRemove_mem m row.ssrc _).mpr
          exact ⟨hbm, hrne_ssrc⟩
        · rw [if_neg hns]
          apply (mapRemove_mem m row.ssrc _).mpr
          exact ⟨hbm, hrne_ssrc⟩

theorem removeRow_invariant (st : MCState) (row : Row)
    (hinv : soundingMapInvariant st) (hmem : row ∈ st.rows) :
    soundingMapInvariant (removeRow st row) := by
  obtain ⟨hwf, hA, hB⟩ := hinv
  refine ⟨?_, ?_, ?_⟩
  · rw [rowsWellFormed]
    rw [rowsWellFormed] at hwf
    exact List.Pairwise.sublist (List.filter_sublist _) hwf
  · intro e he
    obtain ⟨hem, hek⟩ := (mapRemove_mem st.soundingRowBySsrc row.ssrc e).mp he
    obtain ⟨hk0, r, hr, hru, hrs, hrq⟩ := hA e hem
    refine ⟨hk0, r, ?_, hru, hrs, hrq⟩
    show r ∈ List.filter _ st.rows
    rw [List.mem_filter]
    refine ⟨hr, ?_⟩
    rw [bne_iff_ne]
    intro huser
    have hreq : r = row := rowsWF_user_inj st.rows hwf r hr row hmem huser
    apply hek
    rw [← hrq, hreq]
  · intro r hr hs
    have hrm := List.mem_of_mem_filter hr
    have hbm := hB r hrm hs
    have hrnz : r.ssrc ≠ 0 := (hA _ hbm).1
    have hru : (r.user != row.user) = true := (List.mem_filter.mp hr).2
    apply (mapRemove_mem st.soundingRowBySsrc row.ssrc _).mpr
    refine ⟨hbm, ?_⟩
    intro heq
    have hrne : r ≠ row := by
      intro hh
      rw [hh] at hru
      simp at hru
    exact hrnz ((rowsWF_pair st.rows hwf r hrm row hmem hrne).2 heq)

/-- C8: after every updateRow and removeRow call, the
sounding-row-by-ssrc map contains an entry for a row exactly when that
row's sounding flag is true, that entry is keyed by the row's current
ssrc, and every key in the map is nonzero (a row is only ever sounding
when its ssrc is nonzero); preserved as an invariant (soundingMapInvariant,
which also carries the ssrc well-formedness of the row list) under the
freshSsrc assumption that the server never hands a row a nonzero ssrc
already owned by a different row. -/
theorem c8_sounding_map_invariant (st : MCState) (row : Row)
    (p : Option Participant) (hinv : soundingMapInvariant st) :
    (row ∈ st.rows → freshSsrc st row p →
      soundingMapInvariant (updateExistingRow st row p)) ∧
    (row ∈ st.rows → soundingMapInvariant (removeRow st row)) := by
  constructor
  · intro hmem hfresh
    obtain ⟨hwf, hA, hB⟩ := hinv
    obtain ⟨l1, l2, hdec⟩ := List.append_of_mem hmem
    rw [hdec] at hwf hA hB
    have hu : (updateRowState st row p).2.user = row.user :=
      updateState_user { row with skipLevelUpdate := st.skipRowLevelUpdate } p
    have hz : (updateRowState st row p).2.sounding = true →
        (updateRowState st row p).2.ssrc ≠ 0 :=
      updateState_sounding_ssrc
        { row with skipLevelUpdate := st.skipRowLevelUpdate } p
    have hwfP : (l1 ++ row :: l2).Pairwise
        (fun a b => a.user ≠ b.user ∧ (a.ssrc = b.ssrc → a.ssrc = 0)) := by
      rw [rowsWellFormed] at hwf
      exact hwf
    have hmid := (List.pairwise_middle (fun h => rowsWF_symm h)).mp hwfP
    have hO : ∀ x ∈ l1 ++ l2, x.user ≠ row.user :=
      fun x hx => (((List.pairwise_cons.mp hmid).1) x hx).1.symm
    have hssrc2 : (updateRowState st row p).2.ssrc = ssrcOf p :=
      updateState_ssrc { row with skipLevelUpdate := st.skipRowLevelUpdate } p
    have hfresh2 : ∀ x ∈ l1 ++ l2,
        x.ssrc = (updateRowState st row p).2.ssrc →
        (updateRowState st row p).2.ssrc = 0 := by
      intro x hx he
      have hxmem : x ∈ st.rows := by
        rw [hdec]
        exact mem_middle_of_mem_sides hx
      rcases hfresh x hxmem (hO x hx) with h0 | h0
      · rw [hssrc2]
        exact h0
      · rw [hssrc2] at he
        exact absurd he h0
    have hcore := soundingMap_core st.soundingRowBySsrc l1 l2 row
      (updateRowState st row p).2 hu hz hwf hA hB hfresh2
    have hrows2 : (updateExistingRow st row p).rows =
        l1 ++ (updateRowState st row p).2 :: l2 := by
      show setRow st.rows _ = _
      rw [hdec]
      exact setRow_eq l1 l2 row _ hu
        (fun x hx => hO x (List.mem_append_left _ hx))
        (fun x hx => hO x (List.mem_append_right _ hx))
    have hmap2 : (updateExistingRow st row p).soundingRowBySsrc =
        updateSoundingMap st.soundingRowBySsrc
          (updateRowState st row p).2.user row.ssrc
          (updateRowState st row p).2.ssrc row.sounding
          (updateRowState st row p).2.sounding := rfl
    rw [soundingMapInvariant, hrows2, hmap2]
    exact hcore
  · intro hmem
    exact removeRow_invariant st row hinv hmem

/-- Witness for c8_sounding_map_invariant: user 2's sounding row at ssrc 5
is updated to ssrc 7 (the map is re-keyed) and removed (the map entry is
dropped); both results satisfy the invariant. -/
theorem c8_sounding_map_invariant_witness :
    soundingMapInvariant (updateExistingRow
      { mcBase with rows := [rowQuiet1, rowSounding2],
                    soundingRowBySsrc := [(5, 2)] }
      rowSounding2 (some partResync2)) ∧
    soundingMapInvariant (removeRow
      { mcBase with rows := [rowQuiet1, rowSounding2],
                    soundingRowBySsrc := [(5, 2)] }
      rowSounding2) := by
  have hinv : soundingMapInvariant
      { mcBase with rows := [rowQuiet1, rowSounding2],
                    soundingRowBySsrc := [(5, 2)] } := by
    rw [soundingMapInvariant, rowsWellFormed]
    decide
  have h := c8_sounding_map_invariant
    { mcBase with rows := [rowQuiet1, rowSounding2],
                  soundingRowBySsrc := [(5, 2)] }
    rowSounding2 (some partResync2) hinv
  refine ⟨h.1 (by decide) ?_, h.2 (by decide)⟩
  rw [freshSsrc]
  decide

end Calls
